import Mathlib

/-!
Verification of the preprocessing pipeline core (`sotodlib/preprocess/pcore.py`):
the axis-indexed container model, the full-frame reconciliation engine
(`_expand`, `update_full_aman` and their helpers), the stage contract and
registry (`_Preprocess`), and the pipeline orchestrator (`Pipeline`).

Machine integers are modelled as `Int`/`Nat`; numpy arrays as (nested) lists;
`so3g` `Ranges`/`RangesMatrix` values as boolean masks; scipy `csr_array`
values as coordinate triples plus an explicit shape; Python exceptions as
`Except String`.  Container primitives that live in `sotodlib.core` (axis
intersection, `restrict`) are not part of the sources under verification and
are modelled from the spec, as marked in their doc comments.
-/

set_option maxRecDepth 4000

namespace PCore

/-- Axis roles used in field assignments: the entity axis `dets`, the sample
axis `samps`, or some other named axis. -/
inductive AxName where
  | dets
  | samps
  | otherAx (s : String)
deriving DecidableEq

/-- A Python slice with integer bounds, as returned by the sample-axis
intersection; the indices it selects are `lo ≤ i < hi`. -/
structure Slice where
  lo : Int
  hi : Int
deriving DecidableEq

/-- Whether sample index `c` is selected by slice `s`. -/
def inSlice (s : Slice) (c : Nat) : Bool :=
  decide (s.lo ≤ (c : Int)) && decide ((c : Int) < s.hi)

def detPairsGo (newD : List String) : Nat → List String → List (Nat × Nat)
  | _, [] => []
  | i, l :: ls =>
    match newD.findIdx? (fun x => x = l) with
    | some j => (i, j) :: detPairsGo newD (i + 1) ls
    | none => detPairsGo newD (i + 1) ls

/-- Modelled from the spec: `LabelAxis.intersection` (in `sotodlib.core`, not
among the verified sources).  Entity axes intersect by label membership; the
returned mapping pairs `(full-side index, sub-side index)` for each label
common to both, preserving the full axis's original ordering and never
re-sorting.  Labels are globally unique within an axis. -/
def detPairs (fullD newD : List String) : List (Nat × Nat) :=
  detPairsGo newD 0 fullD

/-- Modelled from the spec: `OffsetAxis.intersection` (in `sotodlib.core`, not
among the verified sources).  Sample axes are contiguous integer ranges
`[offset, offset+count)`; they intersect by comparing offset and length, and
the overlap is returned as a slice into each instance's local coordinates.
A disjoint overlap yields `hi ≤ lo`, i.e. a slice selecting nothing. -/
def sampsInter (fullS newS : Int × Nat) : Slice × Slice :=
  let lo := max fullS.1 newS.1
  let hi := min (fullS.1 + (fullS.2 : Int)) (newS.1 + (newS.2 : Int))
  (⟨lo - fullS.1, hi - fullS.1⟩, ⟨lo - newS.1, hi - newS.1⟩)

mutual
/-- A field value: a wrapped Python scalar, a 1-d or 2-d numpy array, a
`Ranges` (RLE boolean mask over samples, stored expanded), a `RangesMatrix`
(one mask row per entity), a compressed-row sparse matrix (shape plus stored
`(row, col, value)` entries), a nested `AxisManager`, or a value of some
unrecognized runtime kind. -/
inductive Val where
  | scalar (x : Int)
  | arr1 (data : List Int)
  | arr2 (data : List (List Int))
  | rng (mask : List Bool)
  | rmat (rows : List (List Bool))
  | csr (nrows ncols : Nat) (entries : List (Nat × Nat × Int))
  | subm (m : AMan)
  | other (tag : String)

/-- The ordered field store of a container: name, value, axis assignment. -/
inductive Fields where
  | nil
  | cons (name : String) (v : Val) (assign : List AxName) (rest : Fields)

/-- An `AxisManager`: an optional entity axis (ordered unique labels), an
optional sample axis (offset and count), other named axes (name and size),
and an ordered field store. -/
inductive AMan where
  | mk (dets : Option (List String)) (samps : Option (Int × Nat))
       (extra : List (String × Nat)) (fields : Fields)
end

namespace AMan

def dets? : AMan → Option (List String)
  | .mk d _ _ _ => d

def samps? : AMan → Option (Int × Nat)
  | .mk _ s _ _ => s

def extraOf : AMan → List (String × Nat)
  | .mk _ _ e _ => e

def fieldsOf : AMan → Fields
  | .mk _ _ _ f => f

/-- `aman.dets.vals` (empty when the axis is absent). -/
def detsVals (m : AMan) : List String :=
  (dets? m).getD []

/-- `aman.dets.count` (zero when the axis is absent). -/
def detsCount (m : AMan) : Nat :=
  (detsVals m).length

end AMan

namespace Fields

def lookup : Fields → String → Option (Val × List AxName)
  | .nil, _ => none
  | .cons n v a r, k => if n = k then some (v, a) else lookup r k

def has (fs : Fields) (k : String) : Bool :=
  (fs.lookup k).isSome

def names : Fields → List String
  | .nil => []
  | .cons n _ _ r => n :: names r

def app : Fields → Fields → Fields
  | .nil, g => g
  | .cons n v a r, g => .cons n v a (app r g)

def toL : Fields → List (String × Val × List AxName)
  | .nil => []
  | .cons n v a r => (n, v, a) :: toL r

end Fields

/-- `full._fields` membership test used by `update_full_aman`. -/
def hasFieldA (m : AMan) (k : String) : Bool :=
  (AMan.fieldsOf m).has k

/-- Look a top-level field up in a container. -/
def lookupFieldA (m : AMan) (k : String) : Option (Val × List AxName) :=
  (AMan.fieldsOf m).lookup k

/-- Append a field at the end of a container's field store (the effect of a
successful `wrap` on a fresh name). -/
def appendFieldA (m : AMan) (k : String) (v : Val) (a : List AxName) : AMan :=
  match m with
  | .mk d s e f => .mk d s e (f.app (.cons k v a .nil))

/-- Monadic map over a list in `Except`, with clean unfolding equations. -/
def exMapM (f : α → Except String β) : List α → Except String (List β)
  | [] => .ok []
  | x :: xs =>
    match f x with
    | .error e => .error e
    | .ok y =>
      match exMapM f xs with
      | .error e => .error e
      | .ok ys => .ok (y :: ys)

/-- `np.isscalar(v)`: true exactly for wrapped Python scalars.  (Lists, `None`
and other unrecognized objects, modelled by `Val.other`, are not numpy
scalars.) -/
def isScalarV : Val → Bool
  | .scalar _ => true
  | _ => false

/-- The runtime kinds `_zeros_cls` recognizes: `np.ndarray`, `RangesMatrix`,
`Ranges`, `csr_array`. -/
def kindRecognized : Val → Bool
  | .arr1 _ => true
  | .arr2 _ => true
  | .rng _ => true
  | .rmat _ => true
  | .csr _ _ _ => true
  | _ => false

/-- The zero/empty value of the same kind and dtype as `v` at the requested
shape: `np.zeros` for arrays, `RangesMatrix.zeros`, an empty `Ranges` (whose
factory asserts the shape is 1-dimensional), an empty `csr_array`. -/
def mkZero (v : Val) (shape : List Nat) : Except String Val :=
  match v, shape with
  | .arr1 _, [n] => .ok (.arr1 (List.replicate n 0))
  | .arr2 _, [r, c] => .ok (.arr2 (List.replicate r (List.replicate c 0)))
  | .rng _, [n] => .ok (.rng (List.replicate n false))
  | .rmat _, [r, c] => .ok (.rmat (List.replicate r (List.replicate c false)))
  | .csr _ _ _, [r, c] => .ok (.csr r c [])
  | _, _ => .error "zeros shape does not match value rank"

/-- `_zeros_cls(item)` applied to a shape: a same-kind, same-dtype zero value,
or a `ValueError` when no zero factory exists for the item's runtime kind. -/
def zeros_cls (v : Val) (shape : List Nat) : Except String Val :=
  if kindRecognized v then mkZero v shape else .error "Cannot find zero type"

/-- Context threaded through `_expand`'s per-field processing: the full frame's
entity labels and sample axis, the sizes of the destination's other axes, and
the two axis intersections (`none` when `sub` does not declare the axis, in
which case the sub-side index variable is left undefined, as in the source). -/
structure ExpCtx where
  fullD : List String
  fullS : Int × Nat
  outSizes : List (String × Nat)
  pairsO : Option (List (Nat × Nat))
  slicesO : Option (Slice × Slice)

/-- The length of a destination dimension, taken from the destination's axes
(`wrap_new` computes the new buffer's shape this way). -/
def axSize (ctx : ExpCtx) : AxName → Except String Nat
  | .dets => .ok ctx.fullD.length
  | .samps => .ok ctx.fullS.2
  | .otherAx n =>
    match ctx.outSizes.find? (fun p => p.1 = n) with
    | some p => .ok p.2
    | none => .error "axis not found in destination"

/-- Building `oidx`/`nidx` references `ns_dets`/`ns_samps`, which are unbound
(`NameError`) when the sub-container does not declare the corresponding
axis. -/
def precheckAx (ctx : ExpCtx) : AxName → Except String Unit
  | .dets => if ctx.pairsO.isSome then .ok () else .error "NameError: ns_dets"
  | .samps => if ctx.slicesO.isSome then .ok () else .error "NameError: ns_samps"
  | .otherAx _ => .ok ()

/-- Positional index mapping of one destination dimension: for a destination
index, the sub-side index it receives data from, if any.  `dets` dimensions
map through the entity intersection pairs, `samps` dimensions through the
column-shifted slice overlap, other dimensions pass through unchanged
(`slice(None)`). -/
def dimMapFn (ctx : ExpCtx) : AxName → Nat → Option Nat
  | .dets => fun i => ((ctx.pairsO.getD []).find? (fun p => p.1 = i)).map (fun p => p.2)
  | .samps => fun c =>
    let pr := ctx.slicesO.getD (⟨0, 0⟩, ⟨0, 0⟩)
    if inSlice pr.1 c then some ((c : Int) - pr.1.lo + pr.2.lo).toNat else none
  | .otherAx _ => fun i => some i

/-- `_ranges_match(o, n, oidx, nidx)`: overwrite the destination mask at the
mapped sample positions with the source mask at its sample positions. -/
def rngMatch (omask nmask : List Bool) (fs ns : Slice) : List Bool :=
  (List.range omask.length).map fun c =>
    if inSlice fs c then nmask.getD ((c : Int) - fs.lo + ns.lo).toNat false
    else omask.getD c false

/-- `_ranges_matrix_match(o, n, oidx, nidx)`: for each matched entity pair,
align the sub entity's mask into the corresponding full-entity row; untouched
rows keep their previous mask. -/
def rmatMatch (orows nrows' : List (List Bool)) (pairs : List (Nat × Nat))
    (fs ns : Slice) : List (List Bool) :=
  pairs.foldl
    (fun acc pr => acc.set pr.1 (rngMatch (acc.getD pr.1 []) (nrows'.getD pr.2 []) fs ns))
    orows

/-- `_reform_csr_array(arr, oidx, nidx, shape)`: rebuild a csr matrix at the
destination shape.  `row_map` maps sub-side row indices to full-side rows;
the row reconstruction iterates over *every* row of the source (`KeyError`
when one is unmapped), and columns shift by the constant slice offset
(the csr constructor rejects out-of-bounds indices). -/
def reform_csr (nrows : Nat) (entries : List (Nat × Nat × Int))
    (pairs : List (Nat × Nat)) (colShift : Int) (outR outC : Nat) :
    Except String (List (Nat × Nat × Int)) :=
  let rowMap : Nat → Option Nat := fun r => (pairs.find? (fun p => p.2 = r)).map (fun p => p.1)
  match exMapM (fun r => match rowMap r with
      | some r' => .ok r'
      | none => .error "KeyError: row not in row_map") (List.range nrows) with
  | .error e => .error e
  | .ok _ =>
    exMapM (fun t =>
      match rowMap t.1 with
      | none => .error "KeyError: row not in row_map"
      | some r' =>
        let c' : Int := (t.2.1 : Int) + colShift
        if 0 ≤ c' ∧ c' < (outC : Int) ∧ r' < outR then .ok (r', c'.toNat, t.2.2)
        else .error "ValueError: index out of bounds") entries

/-- The per-field copy step of `_expand` for non-scalar, non-AxisManager
values: allocate a destination buffer via the polymorphic zero factory, build
the per-dimension index maps, then dispatch on the value's runtime kind. -/
def processField (ctx : ExpCtx) (v : Val) (asn : List AxName) : Except String Val :=
  if kindRecognized v = false then .error "Cannot find zero type" else
  match exMapM (axSize ctx) asn with
  | .error e => .error e
  | .ok shape =>
    match zeros_cls v shape with
    | .error e => .error e
    | .ok z =>
      match exMapM (precheckAx ctx) asn with
      | .error e => .error e
      | .ok _ =>
        let pairs := ctx.pairsO.getD []
        let slcs := ctx.slicesO.getD (⟨0, 0⟩, ⟨0, 0⟩)
        match v, z with
        | .rmat nr, .rmat zr =>
          if asn.getLast? ≠ some .samps then
            .error "AssertionError: RangesMatrix last axis must be samps"
          else if asn.length > 2 then .error "NotImplemented"
          else
            match asn with
            | [.dets, .samps] => .ok (.rmat (rmatMatch zr nr pairs slcs.1 slcs.2))
            | _ => .error "TypeError: slice object is not iterable"
        | .rng nm, .rng zm =>
          if asn.head? ≠ some .samps then
            .error "AssertionError: Ranges first axis must be samps"
          else if asn.length ≠ 1 then .error "AssertionError: len(oidx) == 1"
          else .ok (.rng (rngMatch zm nm slcs.1 slcs.2))
        | .csr nrows _ ents, .csr zrR zcC _ =>
          if asn ≠ [.dets, .samps] then
            .error "AssertionError: csr assignment must be dets, samps"
          else
            match reform_csr nrows ents pairs (slcs.1.lo - slcs.2.lo) zrR zcC with
            | .error e => .error e
            | .ok ents' => .ok (.csr zrR zcC ents')
        | .arr1 nd, .arr1 zd =>
          match asn with
          | [a] =>
            let f := dimMapFn ctx a
            .ok (.arr1 ((List.range zd.length).map fun i =>
              match f i with
              | some j => nd.getD j 0
              | none => 0))
          | _ => .error "IndexError: wrong index tuple length"
        | .arr2 nd, .arr2 zd =>
          match asn with
          | [a, b] =>
            let fa := dimMapFn ctx a
            let fb := dimMapFn ctx b
            .ok (.arr2 ((List.range zd.length).map fun i =>
              (List.range ((zd.getD i []).length)).map fun jc =>
                match fa i, fb jc with
                | some i', some j' => ((nd.getD i' []).getD j' 0)
                | _, _ => 0))
          | _ => .error "IndexError: wrong index tuple length"
        | _, _ => .error "zero factory changed the value kind"

/-- Whether a full-frame row index is in the full-side entity mapping
(`i in fs_dets`; every row when the sub-container declares no entity axis,
since then `fs_dets = range(full.dets.count)`). -/
def detMemB (ctx : ExpCtx) (i : Nat) : Bool :=
  match ctx.pairsO with
  | none => true
  | some ps => ps.any (fun p => p.1 = i)

/-- Whether a sample index is inside the full-side sample mapping
(`m[fs_samps] = True`; every sample when the sub-container declares no sample
axis, since then `fs_samps = slice(None)`). -/
def sampMemB (ctx : ExpCtx) (c : Nat) : Bool :=
  match ctx.slicesO with
  | none => true
  | some pr => inSlice pr.1 c

/-- The validity interval-matrix wrapped as `valid`: one row per full-frame
entity; a matched entity's row is the full-side sample mask, an unmatched
entity's row is everywhere false. -/
def validVal (ctx : ExpCtx) : Val :=
  .rmat ((List.range ctx.fullD.length).map fun i =>
    if detMemB ctx i then (List.range ctx.fullS.2).map (sampMemB ctx)
    else List.replicate ctx.fullS.2 false)

/-- The destination's other-axes: the full frame's other axes that the
sub-container also declares, then the sub-container's axes not already
present. -/
def outExtraAxes (fullExtra newExtra : List (String × Nat)) : List (String × Nat) :=
  let kept := fullExtra.filter (fun p => (newExtra.map Prod.fst).contains p.1)
  kept ++ newExtra.filter (fun p => (kept.map Prod.fst).contains p.1 = false)

/-- The intersection context `_expand` computes before touching any field. -/
def mkCtx (new : AMan) (fullD : List String) (fullS : Int × Nat)
    (fullExtra : List (String × Nat)) : ExpCtx :=
  ⟨fullD, fullS, outExtraAxes fullExtra (AMan.extraOf new),
    (AMan.dets? new).map (detPairs fullD),
    (AMan.samps? new).map (sampsInter fullS)⟩

/-- The tail of `_expand` after all fields are processed: wrap the validity
interval-matrix (unless `wrap_valid` is off) and assemble the destination
container over the full axes; `wrap` refuses duplicate field names. -/
def finishExpand (ctx : ExpCtx) (fullD : List String) (fullS : Int × Nat)
    (wv : Bool) (r : Except String Fields) : Except String AMan :=
  match r with
  | .error e => .error e
  | .ok flds =>
    let flds2 :=
      if wv then flds.app (.cons "valid" (validVal ctx) [.dets, .samps] .nil)
      else flds
    if (Fields.names flds2).Nodup then
      .ok (.mk (some fullD) (some fullS) ctx.outSizes flds2)
    else .error "wrap: duplicate field name"

/-- The per-field loop of `_expand`: nested AxisManagers recurse through the
whole of `_expand` (with `wrap_valid` left at its default `True`), wrapped
scalars are copied verbatim, every other value goes through the
zero-allocate-and-copy step. -/
def goFields (flds : Fields) (ctx : ExpCtx) (fullD : List String)
    (fullS : Int × Nat) (fullExtra : List (String × Nat)) : Except String Fields :=
  match flds with
  | .nil => .ok .nil
  | .cons k (.subm (.mk d2 s2 e2 f2)) asn rest =>
    match finishExpand (mkCtx (.mk d2 s2 e2 f2) fullD fullS fullExtra) fullD fullS true
        (goFields f2 (mkCtx (.mk d2 s2 e2 f2) fullD fullS fullExtra) fullD fullS fullExtra) with
    | .error e => .error e
    | .ok out =>
      match goFields rest ctx fullD fullS fullExtra with
      | .error e => .error e
      | .ok r => .ok (.cons k (.subm out) asn r)
  | .cons k (.scalar x) asn rest =>
    match goFields rest ctx fullD fullS fullExtra with
    | .error e => .error e
    | .ok r => .ok (.cons k (.scalar x) asn r)
  | .cons k v asn rest =>
    match processField ctx v asn with
    | .error e => .error e
    | .ok w =>
      match goFields rest ctx fullD fullS fullExtra with
      | .error e => .error e
      | .ok r => .ok (.cons k w asn r)

/-- `_expand(new, full, wrap_valid)`: embed a container computed over a
restricted entity/sample subspace into a like-shaped container spanning the
full index space.  The full frame's `dets` and `samps` axes are taken as
given (the pipeline accumulator always carries both). -/
def expandA (new : AMan) (fullD : List String) (fullS : Int × Nat)
    (fullExtra : List (String × Nat)) (wv : Bool) : Except String AMan :=
  finishExpand (mkCtx new fullD fullS fullExtra) fullD fullS wv
    (goFields (AMan.fieldsOf new) (mkCtx new fullD fullS fullExtra) fullD fullS fullExtra)

/-- Unfolding of the field loop at a nested-container field, phrased through
`_expand` itself. -/
theorem goFields_subm_eq (k : String) (m : AMan) (asn : List AxName) (rest : Fields)
    (ctx : ExpCtx) (fullD : List String) (fullS : Int × Nat)
    (fx : List (String × Nat)) :
    goFields (.cons k (.subm m) asn rest) ctx fullD fullS fx =
      (match expandA m fullD fullS fx true with
       | .error e => .error e
       | .ok out =>
         (match goFields rest ctx fullD fullS fx with
          | .error e => .error e
          | .ok r => .ok (.cons k (.subm out) asn r))) := by
  cases m
  rfl

/-- Unfolding of the field loop at a wrapped-scalar field. -/
theorem goFields_scalar_eq (k : String) (x : Int) (asn : List AxName) (rest : Fields)
    (ctx : ExpCtx) (fullD : List String) (fullS : Int × Nat)
    (fx : List (String × Nat)) :
    goFields (.cons k (.scalar x) asn rest) ctx fullD fullS fx =
      (match goFields rest ctx fullD fullS fx with
       | .error e => .error e
       | .ok r => .ok (.cons k (.scalar x) asn r)) := rfl

/-- Unfolding of the field loop at a field that is neither a nested container
nor a wrapped scalar. -/
theorem goFields_other_eq (k : String) (v : Val) (asn : List AxName) (rest : Fields)
    (ctx : ExpCtx) (fullD : List String) (fullS : Int × Nat)
    (fx : List (String × Nat)) (hv : ∀ m, v ≠ .subm m) (hs : ∀ x, v ≠ .scalar x) :
    goFields (.cons k v asn rest) ctx fullD fullS fx =
      (match processField ctx v asn with
       | .error e => .error e
       | .ok w =>
         (match goFields rest ctx fullD fullS fx with
          | .error e => .error e
          | .ok r => .ok (.cons k w asn r))) := by
  cases v with
  | subm m => exact absurd rfl (hv m)
  | scalar x => exact absurd rfl (hs x)
  | arr1 d => rfl
  | arr2 d => rfl
  | rng m => rfl
  | rmat r => rfl
  | csr r c e => rfl
  | other t => rfl

/-- The field loop of `update_full_aman`: for each top-level name of the
product container absent from the full-frame accumulator, assert the value is
an `AxisManager`, expand it and wrap it into the accumulator.  The container
is mutated in place, so the result carries the accumulator state together
with the exception, if one was raised. -/
def goUpd (flds : Fields) (full : AMan) (fd : List String) (fs : Int × Nat)
    (wv : Bool) : AMan × Option String :=
  match flds with
  | .nil => (full, none)
  | .cons fld v _ rest =>
    if hasFieldA full fld then goUpd rest full fd fs wv
    else
      match v with
      | .subm m =>
        match expandA m fd fs (AMan.extraOf full) wv with
        | .error e => (full, some e)
        | .ok out => goUpd rest (appendFieldA full fld (.subm out) []) fd fs wv
      | _ => (full, some "AssertionError: expected an AxisManager")

/-- `update_full_aman(proc_aman, full, wrap_valid)`: copy the *new* top-level
fields of `proc_aman` into `full` after re-sizing and re-indexing; fields
already present in `full` are left untouched. -/
def update_full_aman (proc full : AMan) (wv : Bool) : AMan × Option String :=
  match AMan.dets? full, AMan.samps? full with
  | some fd, some fs => goUpd (AMan.fieldsOf proc) full fd fs wv
  | _, _ => (full, some "AttributeError: full has no dets or samps axis")

/-- A sequence of reconciliations, one per stage, as performed over a pipeline
run; stops at the first raised exception. -/
def runUpdates : List AMan → AMan → Bool → AMan × Option String
  | [], full, _ => (full, none)
  | p :: ps, full, wv =>
    match update_full_aman p full wv with
    | (full', none) => runUpdates ps full' wv
    | (full', some e) => (full', some e)

/-- Narrow one non-container value along the entity axis according to its
assignment, keeping the rows/columns selected by `perm`. -/
def restrictValV (v : Val) (asn : List AxName) (perm : List Nat) : Val :=
  match v with
  | .arr1 dta =>
    match asn with
    | [.dets] => .arr1 (perm.map (fun i => dta.getD i 0))
    | _ => .arr1 dta
  | .arr2 dta =>
    match asn with
    | .dets :: _ => .arr2 (perm.map (fun i => dta.getD i []))
    | [_, .dets] => .arr2 (dta.map (fun row => perm.map (fun j => row.getD j 0)))
    | _ => .arr2 dta
  | .rmat rows =>
    match asn with
    | .dets :: _ => .rmat (perm.map (fun i => rows.getD i []))
    | _ => .rmat rows
  | .csr _ nc ents =>
    match asn with
    | [.dets, .samps] =>
      .csr perm.length nc (ents.filterMap (fun t =>
        (perm.findIdx? (fun i => i = t.1)).map (fun r2 => (r2, t.2.1, t.2.2))))
    | _ => .csr perm.length nc ents
  | w => w

/-- Narrow every field of a store along the entity axis; nested containers
share the parent's axes and are narrowed with it (to the same label list). -/
def restrictFieldsF (f : Fields) (labels : List String) (perm : List Nat) : Fields :=
  match f with
  | .nil => .nil
  | .cons k (.subm (.mk d2 s2 e2 f2)) a r =>
    let inner : AMan :=
      match d2 with
      | none => .mk none s2 e2 f2
      | some cur =>
        .mk (some (labels.filter (fun l => cur.contains l))) s2 e2
          (restrictFieldsF f2 labels
            (labels.filterMap (fun l => cur.findIdx? (fun x => x = l))))
    .cons k (.subm inner) a (restrictFieldsF r labels perm)
  | .cons k v a r => .cons k (restrictValV v a perm) a (restrictFieldsF r labels perm)

/-- Modelled from the spec: `AxisManager.restrict('dets', labels)` (in
`sotodlib.core`, not among the verified sources).  Destructively narrows the
entity axis to the given label subset, in the given order, and narrows every
field assigned to that axis; nested containers share the parent's axes and
are narrowed with it.  Never extends the axis; idempotent. -/
def restrictDetsA (m : AMan) (labels : List String) : AMan :=
  match m with
  | .mk d s e f =>
    match d with
    | none => .mk none s e f
    | some cur =>
      .mk (some (labels.filter (fun l => cur.contains l))) s e
        (restrictFieldsF f labels
          (labels.filterMap (fun l => cur.findIdx? (fun x => x = l))))

/-- One pipeline stage as the run loop sees it: a registry name, the
simulation-skip flag, and the three state-mutating lifecycle hooks (`plot` is
pure side effect and leaves the containers unchanged).  Each hook maps the
`(aman, proc_aman)` pair it may mutate in place to its new state. -/
structure PStage where
  pname : String
  skipOnSim : Bool
  processF : AMan → AMan → AMan × AMan
  calcF : AMan → AMan → AMan × AMan
  selectF : AMan → AMan → AMan × AMan

/-- The run-loop parameters of `Pipeline.run`. -/
structure RunFlags where
  sel : Bool
  sim : Bool
  wrapValid : Bool

/-- The mutable state of one pipeline run. -/
structure LoopState where
  aman : AMan
  proc : AMan
  full : AMan

/-- The body of one iteration of `Pipeline.run`'s loop: `process`, then (in
compute mode) `calc_and_save` followed by reconciliation into the full-frame
accumulator, then `select` followed by restricting the product container to
the surviving entities.  A raised exception propagates. -/
def stepStage (fl : RunFlags) (runCalc : Bool) (s : PStage) (st : LoopState) :
    Except String LoopState :=
  let a1 := (s.processF st.aman st.proc).1
  let p1 := (s.processF st.aman st.proc).2
  match (if runCalc then
      let a2 := (s.calcF a1 p1).1
      let p2 := (s.calcF a1 p1).2
      match update_full_aman p2 st.full fl.wrapValid with
      | (_, some e) => Except.error e
      | (full', none) => Except.ok (⟨a2, p2, full'⟩ : LoopState)
    else Except.ok (⟨a1, p1, st.full⟩ : LoopState)) with
  | .error e => .error e
  | .ok st2 =>
    if fl.sel then
      let a3 := (s.selectF st2.aman st2.proc).1
      let p3 := (s.selectF st2.aman st2.proc).2
      .ok ⟨a3, restrictDetsA p3 (AMan.detsVals a3), st2.full⟩
    else .ok st2

/-- The loop of `Pipeline.run`: stages run in list order (skipping
sim-flagged stages on simulations); after each executed stage, if the raw
container's entity axis has emptied, the loop stops and the stage's name is
recorded as the termination cause; otherwise the sentinel `"end"` is
returned. -/
def runPipe (fl : RunFlags) (runCalc : Bool) :
    List PStage → LoopState → Except String (AMan × String)
  | [], st => .ok (st.full, "end")
  | s :: rest, st =>
    if fl.sim && s.skipOnSim then runPipe fl runCalc rest st
    else
      match stepStage fl runCalc s st with
      | .error e => .error e
      | .ok st' =>
        if AMan.detsCount st'.aman = 0 then .ok (st'.full, s.pname)
        else runPipe fl runCalc rest st'

/-- Running the stage sequence for its state effect only, with no early exit:
used to phrase which prefix of the pipeline actually executed. -/
def execAll (fl : RunFlags) (runCalc : Bool) :
    List PStage → LoopState → Except String LoopState
  | [], st => .ok st
  | s :: rest, st =>
    if fl.sim && s.skipOnSim then execAll fl runCalc rest st
    else
      match stepStage fl runCalc s st with
      | .error e => .error e
      | .ok st' => execAll fl runCalc rest st'

/-- The entity labels common to a resumed product container and the raw
container, in the product container's original order
(`[det for det in proc_aman.dets.vals if det in aman.dets.vals]`). -/
def commonDets (aman proc : AMan) : List String :=
  (AMan.detsVals proc).filter (fun d => (AMan.detsVals aman).contains d)

/-- The preamble of `Pipeline.run`: with no product container, create an
empty product container and full-frame accumulator shaped like `aman`'s axes
and enable compute mode; with a resumed product container, reconcile a
detector-axis mismatch by warning and restricting both containers to their
common entities (product order), clone the product container into the
accumulator, and disable compute mode.  Returns the initial loop state, the
compute-mode flag and whether the mismatch warning was emitted. -/
def runInit (aman : AMan) (procO : Option AMan) : LoopState × Bool × Bool :=
  match procO with
  | none =>
    let proc0 : AMan := .mk (AMan.dets? aman) (AMan.samps? aman) [] .nil
    (⟨aman, proc0, proc0⟩, true, false)
  | some proc =>
    if AMan.detsVals aman = AMan.detsVals proc then (⟨aman, proc, proc⟩, false, false)
    else
      let dl := commonDets aman proc
      (⟨restrictDetsA aman dl, restrictDetsA proc dl, restrictDetsA proc dl⟩, false, true)

/-- `Pipeline.run(aman, proc_aman, select, sim)`. -/
def pipelineRun (fl : RunFlags) (pl : List PStage) (aman : AMan)
    (procO : Option AMan) : Except String (AMan × String) :=
  runPipe fl (runInit aman procO).2.1 pl (runInit aman procO).1

/-- Replace a stage's `calc_and_save` hook by a no-op, for stating that a run
out of compute mode never invokes it. -/
def stripCalc : PStage → PStage
  | ⟨n, sk, pf, _, sf⟩ => ⟨n, sk, pf, fun a p => (a, p), sf⟩

/-- A Python configuration value: `None`, a boolean, a string, or some opaque
sub-configuration object (hook sub-configurations are opaque to the core). -/
inductive CVal where
  | cnull
  | cbool (b : Bool)
  | cstr (s : String)
  | copaque (tag : String)
deriving DecidableEq

/-- A configuration dictionary: an ordered string-keyed mapping. -/
def CfgDict := List (String × CVal)

/-- `d.get(k)`: `None` when the key is absent. -/
def dget (d : CfgDict) (k : String) : Option CVal :=
  (d.find? (fun p => p.1 = k)).map (fun p => p.2)

/-- `k in d`. -/
def dhas (d : CfgDict) (k : String) : Bool :=
  (dget d k).isSome

/-- The state `_Preprocess.__init__` builds from a step's configuration
dictionary: the five hook sub-configurations, absent keys collapsing to
`None` via `dict.get`, and the `skip_on_sim` flag (default `False`). -/
structure PreprocessBase where
  process_cfgs : CVal
  calc_cfgs : CVal
  save_cfgs : CVal
  select_cfgs : CVal
  plot_cfgs : CVal
  skip_flag : CVal
deriving DecidableEq

/-- `_Preprocess.__init__(step_cfgs)`. -/
def initPreprocess (d : CfgDict) : PreprocessBase :=
  ⟨(dget d "process").getD .cnull,
   (dget d "calc").getD .cnull,
   (dget d "save").getD .cnull,
   (dget d "select").getD .cnull,
   (dget d "plot").getD .cnull,
   (dget d "skip_on_sim").getD (.cbool false)⟩

/-- Base `_Preprocess.process`: return silently when the `process` config is
`None`, else `raise NotImplementedError`. -/
def base_process (st : PreprocessBase) : Except String Unit :=
  if st.process_cfgs = .cnull then .ok () else .error "NotImplementedError"

/-- Base `_Preprocess.calc_and_save`. -/
def base_calc_and_save (st : PreprocessBase) : Except String Unit :=
  if st.calc_cfgs = .cnull then .ok () else .error "NotImplementedError"

/-- Base `_Preprocess.save`. -/
def base_save (st : PreprocessBase) : Except String Unit :=
  if st.save_cfgs = .cnull then .ok () else .error "NotImplementedError"

/-- Base `_Preprocess.select`: return the metadata container unchanged when
the `select` config is `None`, else `raise NotImplementedError`. -/
def base_select (st : PreprocessBase) (meta : AMan) : Except String AMan :=
  if st.select_cfgs = .cnull then .ok meta else .error "NotImplementedError"

/-- Base `_Preprocess.plot`. -/
def base_plot (st : PreprocessBase) : Except String Unit :=
  if st.plot_cfgs = .cnull then .ok () else .error "NotImplementedError"

/-- A registrable stage class: its class-level `name` attribute plus an
identity distinguishing two classes that might share a name. -/
structure StageClass where
  cname : String
  classId : Nat
deriving DecidableEq

/-- The process-wide `Pipeline.PIPELINE` registry, name-keyed. -/
def Registry := List (String × StageClass)

/-- `Pipeline.PIPELINE.get(name)`. -/
def regGet (reg : Registry) (n : String) : Option StageClass :=
  (List.find? (fun p => p.1 = n) reg).map (fun p => p.2)

/-- `_Preprocess.register(process_class)`: install the class under its name,
or raise `ValueError` when that name is already registered (the registry is
left as it was). -/
def register (reg : Registry) (c : StageClass) : Except String Registry :=
  match regGet reg c.cname with
  | none => .ok (List.concat reg (c.cname, c))
  | some _ => .error "Preprocess Module of this name is already Registered"

/-- An instantiated stage as the `Pipeline` list stores it: which class
created it and the base state its configuration produced. -/
structure StageInst where
  classId : Nat
  base : PreprocessBase
deriving DecidableEq

/-- `cls(item)`: instantiate a registered class from its configuration
dictionary. -/
def mkInst (c : StageClass) (d : CfgDict) : StageInst :=
  ⟨c.classId, initPreprocess d⟩

/-- A candidate pipeline element as Python sees it: an already-built
`_Preprocess` instance, a configuration dictionary, a raw list (what a slice
assignment passes), or a value of any other type. -/
inductive PipeItem where
  | inst (s : StageInst)
  | cfgd (d : CfgDict)
  | rawList (l : List PipeItem)
  | junk (tag : String)

/-- `Pipeline._check_item(item)`: accept a `_Preprocess` instance as is;
instantiate a dictionary through the registry (requiring a usable `name`
key); raise `ValueError` for anything else. -/
def checkItem (reg : Registry) : PipeItem → Except String StageInst
  | .inst s => .ok s
  | .cfgd d =>
    match (dget d "name").getD .cnull with
    | .cnull => .error "Processes made from dictionary must have a 'name' key"
    | .cstr n =>
      match regGet reg n with
      | some c => .ok (mkInst c d)
      | none => .error "not registered as a pipeline element"
    | _ => .error "not registered as a pipeline element"
  | .rawList _ => .error "Unknown type created a pipeline element"
  | .junk _ => .error "Unknown type created a pipeline element"

/-- `Pipeline.__init__(modules, ...)`: validate every element. -/
def pipeInit (reg : Registry) (items : List PipeItem) : Except String (List StageInst) :=
  exMapM (checkItem reg) items

/-- `Pipeline.append(item)`. -/
def pipeAppend (reg : Registry) (p : List StageInst) (it : PipeItem) :
    Except String (List StageInst) :=
  match checkItem reg it with
  | .error e => .error e
  | .ok s => .ok (List.concat p s)

/-- `Pipeline.insert(index, item)`. -/
def pipeInsert (reg : Registry) (p : List StageInst) (idx : Nat) (it : PipeItem) :
    Except String (List StageInst) :=
  match checkItem reg it with
  | .error e => .error e
  | .ok s => .ok (p.insertIdx idx s)

/-- The second argument of `Pipeline.extend(index, other)`: either another
`Pipeline` (inserted without re-validation) or an arbitrary iterable. -/
inductive ExtendArg where
  | asPipe (l : List StageInst)
  | asItems (l : List PipeItem)

/-- `Pipeline.extend(index, other)` (the source's signature takes an unused
extra positional argument). -/
def pipeExtend (reg : Registry) (p : List StageInst) (_index : Nat)
    (other : ExtendArg) : Except String (List StageInst) :=
  match other with
  | .asPipe l => .ok (p ++ l)
  | .asItems l =>
    match exMapM (checkItem reg) l with
    | .error e => .error e
    | .ok l' => .ok (p ++ l')

/-- `Pipeline.__setitem__(index, item)` with an integer index. -/
def pipeSetIndex (reg : Registry) (p : List StageInst) (i : Nat) (it : PipeItem) :
    Except String (List StageInst) :=
  match checkItem reg it with
  | .error e => .error e
  | .ok s => .ok (p.set i s)

/-- `Pipeline.__setitem__(slice, items)`: the overridden `__setitem__` passes
the whole right-hand sequence to `_check_item`; if that somehow succeeds, the
underlying `list.__setitem__` then rejects the non-iterable stage instance. -/
def pipeSetSlice (reg : Registry) (_p : List StageInst) (_lo _hi : Nat)
    (it : PipeItem) : Except String (List StageInst) :=
  match checkItem reg it with
  | .error e => .error e
  | .ok _ => .error "TypeError: can only assign an iterable"

/-! ### Supporting lemmas -/

theorem exMapM_ok_mem {f : α → Except String β} {l : List α} {out : List β}
    (h : exMapM f l = .ok out) : ∀ y ∈ out, ∃ x ∈ l, f x = .ok y := by
  induction l generalizing out with
  | nil =>
    simp only [exMapM] at h
    cases h
    intro y hy
    cases hy
  | cons x xs ih =>
    simp only [exMapM] at h
    cases hfx : f x with
    | error e => rw [hfx] at h; cases h
    | ok y0 =>
      rw [hfx] at h
      cases hrest : exMapM f xs with
      | error e => rw [hrest] at h; cases h
      | ok ys =>
        rw [hrest] at h
        cases h
        intro y hy
        rcases List.mem_cons.mp hy with rfl | hy'
        · exact ⟨x, List.mem_cons_self _ _, hfx⟩
        · rcases ih hrest y hy' with ⟨x', hx', hfx'⟩
          exact ⟨x', List.mem_cons_of_mem _ hx', hfx'⟩

theorem lookup_app_of_some (f g : Fields) (k : String)
    (y : Val × List AxName) (h : f.lookup k = some y) :
    (f.app g).lookup k = some y := by
  cases f with
  | nil => simp [Fields.lookup] at h
  | cons n v a r =>
    simp only [Fields.lookup] at h
    by_cases hn : n = k
    · simp [hn] at h
      simpa [Fields.app, Fields.lookup, hn] using h
    · simp only [if_neg hn] at h
      simp only [Fields.app, Fields.lookup, if_neg hn]
      exact lookup_app_of_some r g k y h

theorem lookup_app_of_none (f g : Fields) (k : String)
    (h : f.lookup k = none) : (f.app g).lookup k = g.lookup k := by
  cases f with
  | nil => simp [Fields.app]
  | cons n v a r =>
    simp only [Fields.lookup] at h
    by_cases hn : n = k
    · simp [hn] at h
    · simp only [if_neg hn] at h
      simp only [Fields.app, Fields.lookup, if_neg hn]
      exact lookup_app_of_none r g k h

theorem lookup_append_self (m : AMan) (k : String) (v : Val) (a : List AxName)
    (h : hasFieldA m k = false) :
    lookupFieldA (appendFieldA m k v a) k = some (v, a) := by
  cases m with
  | mk d s e f =>
    simp only [hasFieldA, Fields.has, AMan.fieldsOf, Option.isSome] at h
    cases hf : f.lookup k with
    | some y => rw [hf] at h; cases h
    | none =>
      simp only [lookupFieldA, appendFieldA, AMan.fieldsOf]
      rw [lookup_app_of_none _ _ _ hf]
      simp [Fields.lookup]

theorem lookup_append_of_some (m : AMan) (k k' : String) (v : Val)
    (a : List AxName) {y : Val × List AxName}
    (h : lookupFieldA m k' = some y) :
    lookupFieldA (appendFieldA m k v a) k' = some y := by
  cases m with
  | mk d s e f =>
    simp only [lookupFieldA, AMan.fieldsOf, appendFieldA] at h ⊢
    exact lookup_app_of_some _ _ _ _ h

theorem lookup_append_of_none (m : AMan) (k k' : String) (v : Val)
    (a : List AxName) (hne : k ≠ k')
    (h : lookupFieldA m k' = none) :
    lookupFieldA (appendFieldA m k v a) k' = none := by
  cases m with
  | mk d s e f =>
    simp only [lookupFieldA, AMan.fieldsOf, appendFieldA] at h ⊢
    rw [lookup_app_of_none _ _ _ h]
    simp [Fields.lookup, hne]

theorem hasFieldA_append_ne (m : AMan) (k k' : String) (v : Val)
    (a : List AxName) (hne : k ≠ k') :
    hasFieldA (appendFieldA m k v a) k' = hasFieldA m k' := by
  cases m with
  | mk d s e f =>
    simp only [hasFieldA, Fields.has, AMan.fieldsOf, appendFieldA]
    cases hf : f.lookup k' with
    | some y => rw [lookup_app_of_some _ _ _ _ hf]
    | none =>
      rw [lookup_app_of_none _ _ _ hf]
      simp [Fields.lookup, hne]

end PCore

namespace PCore

/-! ### C7: registry uniqueness -/

/-- C7: registering a stage class under a fresh name succeeds and lookup of
that name afterwards yields the registered class; a second `register` call
under the same name raises the duplicate-registration `ValueError`, and after
the failed call the first registration is still the one lookup returns. -/
theorem register_uniqueness (reg : Registry) (c1 c2 : StageClass)
    (hfresh : regGet reg c1.cname = none) (hdup : c2.cname = c1.cname) :
    ∃ reg', register reg c1 = .ok reg' ∧
      regGet reg' c1.cname = some c1 ∧
      (∃ e, register reg' c2 = .error e) ∧
      regGet reg' c2.cname = some c1 := by
  refine ⟨List.concat reg (c1.cname, c1), ?_, ?_, ?_, ?_⟩
  · simp [register, hfresh]
  · have : regGet (List.concat reg (c1.cname, c1)) c1.cname = some c1 := by
      simp only [regGet, List.concat_eq_append, List.find?_append]
      simp only [regGet] at hfresh
      cases hf : List.find? (fun p => p.1 = c1.cname) reg with
      | some p => rw [hf] at hfresh; simp at hfresh
      | none => simp [List.find?]
    exact this
  · have h1 : regGet (List.concat reg (c1.cname, c1)) c1.cname = some c1 := by
      simp only [regGet, List.concat_eq_append, List.find?_append]
      simp only [regGet] at hfresh
      cases hf : List.find? (fun p => p.1 = c1.cname) reg with
      | some p => rw [hf] at hfresh; simp at hfresh
      | none => simp [List.find?]
    refine ⟨"Preprocess Module of this name is already Registered", ?_⟩
    simp only [register, hdup, h1]
  · rw [hdup]
    simp only [regGet, List.concat_eq_append, List.find?_append]
    simp only [regGet] at hfresh
    cases hf : List.find? (fun p => p.1 = c1.cname) reg with
    | some p => rw [hf] at hfresh; simp at hfresh
    | none => simp [List.find?]

/-- Witness for C7 at a concrete registry and classes. -/
theorem register_uniqueness_witness :
    regGet [] (StageClass.mk "jumps" 1).cname = none ∧
    (StageClass.mk "jumps" 2).cname = (StageClass.mk "jumps" 1).cname ∧
    ∃ reg', register [] (StageClass.mk "jumps" 1) = .ok reg' ∧
      regGet reg' (StageClass.mk "jumps" 1).cname = some (StageClass.mk "jumps" 1) ∧
      (∃ e, register reg' (StageClass.mk "jumps" 2) = .error e) ∧
      regGet reg' (StageClass.mk "jumps" 2).cname = some (StageClass.mk "jumps" 1) :=
  ⟨rfl, rfl, register_uniqueness [] (StageClass.mk "jumps" 1) (StageClass.mk "jumps" 2) rfl rfl⟩

end PCore

namespace PCore

/-! ### C6: hook gating by configuration presence -/

/-- C6 counterexample: a stage configured with an explicit `None` under the
`process` key has the key *present*, yet the base `process` hook returns
without effect instead of raising `NotImplementedError` — `dict.get` cannot
distinguish a present-but-`None` hook key from an absent one, so the claim's
"present ⇒ not-implemented error" direction fails. -/
theorem hook_gating_counterexample :
    dhas [("process", CVal.cnull)] "process" = true ∧
    base_process (initPreprocess [("process", CVal.cnull)]) = .ok () :=
  ⟨rfl, rfl⟩

/-- C6 as amended: for each of the five lifecycle hooks of a base stage, the
hook is a no-op exactly when its stored configuration is `None` — that is,
when the key is absent *or* explicitly set to `None` (`select` returns its
input container unchanged); when the stored configuration is non-`None` and
no concrete implementation overrides the hook, it raises
`NotImplementedError`.  This holds for every configuration dictionary. -/
theorem hook_gating_amended (d : CfgDict) (meta : AMan) :
    ((dget d "process").getD .cnull = .cnull →
      base_process (initPreprocess d) = .ok ()) ∧
    ((dget d "process").getD .cnull ≠ .cnull →
      base_process (initPreprocess d) = .error "NotImplementedError") ∧
    ((dget d "calc").getD .cnull = .cnull →
      base_calc_and_save (initPreprocess d) = .ok ()) ∧
    ((dget d "calc").getD .cnull ≠ .cnull →
      base_calc_and_save (initPreprocess d) = .error "NotImplementedError") ∧
    ((dget d "save").getD .cnull = .cnull →
      base_save (initPreprocess d) = .ok ()) ∧
    ((dget d "save").getD .cnull ≠ .cnull →
      base_save (initPreprocess d) = .error "NotImplementedError") ∧
    ((dget d "select").getD .cnull = .cnull →
      base_select (initPreprocess d) meta = .ok meta) ∧
    ((dget d "select").getD .cnull ≠ .cnull →
      base_select (initPreprocess d) meta = .error "NotImplementedError") ∧
    ((dget d "plot").getD .cnull = .cnull →
      base_plot (initPreprocess d) = .ok ()) ∧
    ((dget d "plot").getD .cnull ≠ .cnull →
      base_plot (initPreprocess d) = .error "NotImplementedError") := by
  refine ⟨?_, ?_, ?_, ?_, ?_, ?_, ?_, ?_, ?_, ?_⟩ <;>
    intro h <;>
    simp [base_process, base_calc_and_save, base_save, base_select, base_plot,
      initPreprocess, h]

/-- Witness for C6's amended theorem: a stage advertising `calc` with a real
sub-configuration but nothing else errors on `calc_and_save` and no-ops on
`process`; `select` returns the container unchanged. -/
theorem hook_gating_amended_witness :
    base_calc_and_save (initPreprocess [("calc", CVal.copaque "cfg")]) =
      .error "NotImplementedError" ∧
    base_process (initPreprocess [("calc", CVal.copaque "cfg")]) = .ok () ∧
    base_select (initPreprocess [("calc", CVal.copaque "cfg")])
        (.mk none none [] .nil) = .ok (.mk none none [] .nil) :=
  ⟨(hook_gating_amended [("calc", CVal.copaque "cfg")] (.mk none none [] .nil)).2.2.2.1
      (by decide),
   (hook_gating_amended [("calc", CVal.copaque "cfg")] (.mk none none [] .nil)).1
      (by decide),
   (hook_gating_amended [("calc", CVal.copaque "cfg")] (.mk none none [] .nil)).2.2.2.2.2.2.1
      (by decide)⟩

end PCore

namespace PCore

/-! ### C5: pipeline element validation -/

/-- C5 counterexample: assigning a list of perfectly valid `_Preprocess`
instances to a *slice* of the pipeline does not validate each element — the
overridden `__setitem__` hands the whole sequence to `_check_item`, which
raises the "Unknown type" `ValueError` even though each element would
individually be accepted. -/
theorem pipeline_slice_assign_counterexample :
    checkItem [] (.inst (StageInst.mk 0 (initPreprocess []))) =
      .ok (StageInst.mk 0 (initPreprocess [])) ∧
    pipeSetSlice [] [] 0 2 (.rawList [.inst (StageInst.mk 0 (initPreprocess []))]) =
      .error "Unknown type created a pipeline element" :=
  ⟨rfl, rfl⟩

/-- C5 as amended: construction from an iterable, `append`, `insert`,
single-index assignment and `extend` each validate every inserted element
through `_check_item` (accepting a `_Preprocess` instance, instantiating a
registered stage class from a dict with a usable `name` key, and raising a
configuration `ValueError` otherwise), so every element these operations ever
install originates from a successful `_check_item` validation; slice
assignment, however, passes the whole right-hand sequence to `_check_item` as
a single candidate and therefore always raises — it can never install
anything, validated or not. -/
theorem pipeline_validation_amended (reg : Registry) :
    (∀ items out, pipeInit reg items = .ok out →
      ∀ s ∈ out, ∃ it ∈ items, checkItem reg it = .ok s) ∧
    (∀ p it out, pipeAppend reg p it = .ok out →
      ∃ s, checkItem reg it = .ok s ∧ out = List.concat p s) ∧
    (∀ p idx it out, pipeInsert reg p idx it = .ok out →
      ∃ s, checkItem reg it = .ok s ∧ out = p.insertIdx idx s) ∧
    (∀ p i it out, pipeSetIndex reg p i it = .ok out →
      ∃ s, checkItem reg it = .ok s ∧ out = p.set i s) ∧
    (∀ p idx l out, pipeExtend reg p idx (.asItems l) = .ok out →
      ∀ s ∈ out, s ∈ p ∨ ∃ it ∈ l, checkItem reg it = .ok s) ∧
    (∀ p lo hi it, ∃ e, pipeSetSlice reg p lo hi it = .error e) ∧
    (∀ t, ∃ e, checkItem reg (.junk t) = .error e) ∧
    (∀ l, ∃ e, checkItem reg (.rawList l) = .error e) ∧
    (∀ d, dget d "name" = none → ∃ e, checkItem reg (.cfgd d) = .error e) := by
  refine ⟨?_, ?_, ?_, ?_, ?_, ?_, ?_, ?_, ?_⟩
  · intro items out h
    exact exMapM_ok_mem h
  · intro p it out h
    simp only [pipeAppend] at h
    cases hc : checkItem reg it with
    | error e => rw [hc] at h; cases h
    | ok s => rw [hc] at h; cases h; exact ⟨s, rfl, rfl⟩
  · intro p idx it out h
    simp only [pipeInsert] at h
    cases hc : checkItem reg it with
    | error e => rw [hc] at h; cases h
    | ok s => rw [hc] at h; cases h; exact ⟨s, rfl, rfl⟩
  · intro p i it out h
    simp only [pipeSetIndex] at h
    cases hc : checkItem reg it with
    | error e => rw [hc] at h; cases h
    | ok s => rw [hc] at h; cases h; exact ⟨s, rfl, rfl⟩
  · intro p idx l out h
    simp only [pipeExtend] at h
    cases hc : exMapM (checkItem reg) l with
    | error e => rw [hc] at h; cases h
    | ok l' =>
      rw [hc] at h
      cases h
      intro s hs
      rcases List.mem_append.mp hs with hp | hl'
      · exact Or.inl hp
      · exact Or.inr (exMapM_ok_mem hc s hl')
  · intro p lo hi it
    simp only [pipeSetSlice]
    cases hc : checkItem reg it with
    | error e => exact ⟨e, rfl⟩
    | ok s => exact ⟨"TypeError: can only assign an iterable", rfl⟩
  · intro t
    exact ⟨"Unknown type created a pipeline element", rfl⟩
  · intro l
    exact ⟨"Unknown type created a pipeline element", rfl⟩
  · intro d h
    simp only [checkItem, h, Option.getD]
    exact ⟨"Processes made from dictionary must have a 'name' key", rfl⟩

/-- Witness for C5's amended theorem: a pipeline constructed from one
instance and one registered-name dictionary consists of validated elements
only. -/
theorem pipeline_validation_amended_witness :
    pipeInit [("jumps", StageClass.mk "jumps" 7)]
        [.inst (StageInst.mk 0 (initPreprocess [])),
         .cfgd [("name", CVal.cstr "jumps")]] =
      .ok [StageInst.mk 0 (initPreprocess []),
           mkInst (StageClass.mk "jumps" 7) [("name", CVal.cstr "jumps")]] ∧
    (∀ s ∈ [StageInst.mk 0 (initPreprocess []),
            mkInst (StageClass.mk "jumps" 7) [("name", CVal.cstr "jumps")]],
      ∃ it ∈ [PipeItem.inst (StageInst.mk 0 (initPreprocess [])),
              PipeItem.cfgd [("name", CVal.cstr "jumps")]],
        checkItem [("jumps", StageClass.mk "jumps" 7)] it = .ok s) :=
  ⟨rfl,
   (pipeline_validation_amended [("jumps", StageClass.mk "jumps" 7)]).1
     [.inst (StageInst.mk 0 (initPreprocess [])),
      .cfgd [("name", CVal.cstr "jumps")]]
     [StageInst.mk 0 (initPreprocess []),
      mkInst (StageClass.mk "jumps" 7) [("name", CVal.cstr "jumps")]]
     rfl⟩

end PCore



namespace PCore

/-! ### C10 and C1: update_full_aman -/

theorem goUpd_preserves (flds : Fields) (full : AMan) (fd : List String)
    (fs : Int × Nat) (wv : Bool) (fld : String) (y : Val × List AxName)
    (h : lookupFieldA full fld = some y) :
    lookupFieldA (goUpd flds full fd fs wv).1 fld = some y := by
  cases flds with
  | nil => simpa [goUpd] using h
  | cons k v a rest =>
    by_cases hk : hasFieldA full k
    · simp only [goUpd, hk, if_true]
      exact goUpd_preserves rest full fd fs wv fld y h
    · simp only [goUpd, hk, Bool.false_eq_true, if_false]
      cases v with
      | subm m =>
        simp only []
        split
        · simpa using h
        · rename_i out he
          exact goUpd_preserves rest (appendFieldA full k (.subm out) []) fd fs wv fld y
            (lookup_append_of_some full k fld (.subm out) [] h)
      | scalar x => simpa using h
      | arr1 d => simpa using h
      | arr2 d => simpa using h
      | rng m => simpa using h
      | rmat r => simpa using h
      | csr r c ents => simpa using h
      | other t => simpa using h

theorem goUpd_new_from (flds : Fields) (full : AMan) (fd : List String)
    (fs : Int × Nat) (wv : Bool) (fld : String)
    (hn : lookupFieldA full fld = none) (y : Val × List AxName)
    (h : lookupFieldA (goUpd flds full fd fs wv).1 fld = some y) :
    flds.has fld = true := by
  cases flds with
  | nil =>
    simp only [goUpd] at h
    rw [hn] at h
    cases h
  | cons k v a rest =>
    by_cases hkf : k = fld
    · simp [Fields.has, Fields.lookup, hkf]
    · have htail : Fields.has rest fld = true → Fields.has (.cons k v a rest) fld = true := by
        intro ht
        simpa [Fields.has, Fields.lookup, hkf] using ht
      by_cases hk : hasFieldA full k
      · simp only [goUpd, hk, if_true] at h
        exact htail (goUpd_new_from rest full fd fs wv fld hn y h)
      · simp only [goUpd, hk, Bool.false_eq_true, if_false] at h
        cases v with
        | subm m =>
          simp only [] at h
          cases he : expandA m fd fs (AMan.extraOf full) wv with
          | error e =>
            rw [he] at h
            simp only [] at h
            rw [hn] at h
            cases h
          | ok out =>
            rw [he] at h
            simp only [] at h
            exact htail (goUpd_new_from rest (appendFieldA full k (.subm out) []) fd fs wv fld
              (lookup_append_of_none full k fld (.subm out) [] hkf hn) y h)
        | scalar x => rw [hn] at h; cases h
        | arr1 d => rw [hn] at h; cases h
        | arr2 d => rw [hn] at h; cases h
        | rng m => rw [hn] at h; cases h
        | rmat r => rw [hn] at h; cases h
        | csr r c ents => rw [hn] at h; cases h
        | other t => rw [hn] at h; cases h

theorem goUpd_err_of_bad (flds : Fields) (full : AMan) (fd : List String)
    (fs : Int × Nat) (wv : Bool) (fld : String) (v : Val) (a : List AxName)
    (hp : flds.lookup fld = some (v, a)) (hnm : ∀ m, v ≠ .subm m)
    (hnf : hasFieldA full fld = false) :
    (goUpd flds full fd fs wv).2 ≠ none := by
  cases flds with
  | nil => simp [Fields.lookup] at hp
  | cons k v' a' rest =>
    simp only [Fields.lookup] at hp
    by_cases hkf : k = fld
    · rw [if_pos hkf] at hp
      injection hp with hp'
      injection hp' with h1 h2
      subst h1
      have hkn : hasFieldA full k = false := by rw [hkf]; exact hnf
      simp only [goUpd, hkn, Bool.false_eq_true, if_false]
      cases v' with
      | subm m => exact absurd rfl (hnm m)
      | scalar x => simp
      | arr1 d => simp
      | arr2 d => simp
      | rng m => simp
      | rmat r => simp
      | csr r c ents => simp
      | other t => simp
    · rw [if_neg hkf] at hp
      by_cases hk : hasFieldA full k
      · simp only [goUpd, hk, if_true]
        exact goUpd_err_of_bad rest full fd fs wv fld v a hp hnm hnf
      · simp only [goUpd, hk, Bool.false_eq_true, if_false]
        cases v' with
        | subm m =>
          simp only []
          split
          · simp
          · rename_i out he
            have hnf' : hasFieldA (appendFieldA full k (.subm out) []) fld = false := by
              rw [hasFieldA_append_ne full k fld (.subm out) [] hkf]
              exact hnf
            exact goUpd_err_of_bad rest (appendFieldA full k (.subm out) []) fd fs wv fld
              v a hp hnm hnf'
        | scalar x => simp
        | arr1 d => simp
        | arr2 d => simp
        | rng m => simp
        | rmat r => simp
        | csr r c ents => simp
        | other t => simp

theorem goUpd_added_shape (flds : Fields) (full : AMan) (fd : List String)
    (fs : Int × Nat) (wv : Bool) (fld : String) (w : Val) (a : List AxName)
    (h : lookupFieldA (goUpd flds full fd fs wv).1 fld = some (w, a)) :
    lookupFieldA full fld = some (w, a) ∨ ∃ out, w = .subm out ∧ a = [] := by
  cases flds with
  | nil => exact Or.inl (by simpa [goUpd] using h)
  | cons k v a' rest =>
    by_cases hk : hasFieldA full k
    · simp only [goUpd, hk, if_true] at h
      exact goUpd_added_shape rest full fd fs wv fld w a h
    · simp only [goUpd, hk, Bool.false_eq_true, if_false] at h
      cases v with
      | subm m =>
        simp only [] at h
        cases he : expandA m fd fs (AMan.extraOf full) wv with
        | error e =>
          rw [he] at h
          exact Or.inl (by simpa using h)
        | ok out =>
          rw [he] at h
          simp only [] at h
          rcases goUpd_added_shape rest (appendFieldA full k (.subm out) []) fd fs wv fld
              w a h with hin | hsub
          · by_cases hkf : k = fld
            · subst hkf
              cases hl : lookupFieldA full k with
              | some z =>
                rw [lookup_append_of_some full k k (.subm out) [] hl] at hin
                exact Or.inl hin
              | none =>
                have hself : lookupFieldA (appendFieldA full k (.subm out) []) k =
                    some (.subm out, []) :=
                  lookup_append_self full k (.subm out) []
                    (by simp only [hasFieldA, Fields.has, lookupFieldA] at hl ⊢
                        rw [hl]
                        rfl)
                rw [hself] at hin
                injection hin with h1
                injection h1 with h2 h3
                exact Or.inr ⟨out, h2.symm, h3.symm⟩
            · cases hl : lookupFieldA full fld with
              | some z =>
                rw [lookup_append_of_some full k fld (.subm out) [] hl] at hin
                exact Or.inl hin
              | none =>
                rw [lookup_append_of_none full k fld (.subm out) [] hkf hl] at hin
                cases hin
          · exact Or.inr hsub
      | scalar x => exact Or.inl (by simpa using h)
      | arr1 d => exact Or.inl (by simpa using h)
      | arr2 d => exact Or.inl (by simpa using h)
      | rng m => exact Or.inl (by simpa using h)
      | rmat r => exact Or.inl (by simpa using h)
      | csr r c ents => exact Or.inl (by simpa using h)
      | other t => exact Or.inl (by simpa using h)

end PCore

namespace PCore

/-- C10: every new top-level field `update_full_aman` reconciles into the
full-frame accumulator must itself be a nested `AxisManager`: if the product
container's first binding for a name absent from the accumulator holds a
value of any other kind, the call raises an `AssertionError` (the offending
field is never wrapped), and consequently any top-level field the
reconciliation ever adds to the accumulator is an expanded nested container —
non-container values enter only nested inside a per-stage sub-container. -/
theorem update_full_aman_nested_only (proc full : AMan) (wv : Bool) :
    (∀ fld v a, lookupFieldA proc fld = some (v, a) → hasFieldA full fld = false →
      (∀ m, v ≠ .subm m) → (update_full_aman proc full wv).2 ≠ none) ∧
    (∀ fld w a, lookupFieldA (update_full_aman proc full wv).1 fld = some (w, a) →
      lookupFieldA full fld = some (w, a) ∨ ∃ out, w = .subm out ∧ a = []) := by
  constructor
  · intro fld v a hp hnf hnm
    simp only [update_full_aman]
    cases hd : AMan.dets? full with
    | none => simp
    | some fd =>
      cases hs : AMan.samps? full with
      | none => simp
      | some fs => exact goUpd_err_of_bad (AMan.fieldsOf proc) full fd fs wv fld v a hp hnm hnf
  · intro fld w a h
    simp only [update_full_aman] at h
    cases hd : AMan.dets? full with
    | none =>
      rw [hd] at h
      exact Or.inl (by simpa using h)
    | some fd =>
      rw [hd] at h
      cases hs : AMan.samps? full with
      | none =>
        rw [hs] at h
        exact Or.inl (by simpa using h)
      | some fs =>
        rw [hs] at h
        simp only [] at h
        exact goUpd_added_shape (AMan.fieldsOf proc) full fd fs wv fld w a h

/-- Witness for C10 at a concrete product container holding a dense array as
a new top-level field: the reconciliation reports the assertion error. -/
theorem update_full_aman_nested_only_witness :
    lookupFieldA (AMan.mk (some ["d0"]) (some (0, 2)) []
        (.cons "bad" (.arr1 [1, 2]) [.dets] .nil)) "bad" =
      some (.arr1 [1, 2], [.dets]) ∧
    hasFieldA (AMan.mk (some ["d0"]) (some (0, 2)) [] .nil) "bad" = false ∧
    (update_full_aman
        (AMan.mk (some ["d0"]) (some (0, 2)) [] (.cons "bad" (.arr1 [1, 2]) [.dets] .nil))
        (AMan.mk (some ["d0"]) (some (0, 2)) [] .nil) true).2 ≠ none :=
  ⟨rfl, rfl,
   (update_full_aman_nested_only
      (AMan.mk (some ["d0"]) (some (0, 2)) [] (.cons "bad" (.arr1 [1, 2]) [.dets] .nil))
      (AMan.mk (some ["d0"]) (some (0, 2)) [] .nil) true).1
     "bad" (.arr1 [1, 2]) [.dets] rfl rfl (fun m h => Val.noConfusion h)⟩

/-- C1: the full-frame accumulator is write-once.  Over any sequence of
per-stage reconciliations, a field name already present in the accumulator
keeps exactly its value (bit-for-bit: the binding is unchanged), and a name
the sequence adds must occur as a top-level field of one of the product
containers — `update_full_aman` only ever creates fields for names present in
the product container but absent from the accumulator. -/
theorem accumulator_write_once (procs : List AMan) (full : AMan) (wv : Bool) :
    (∀ fld y, lookupFieldA full fld = some y →
      lookupFieldA (runUpdates procs full wv).1 fld = some y) ∧
    (∀ fld, lookupFieldA full fld = none →
      ∀ y, lookupFieldA (runUpdates procs full wv).1 fld = some y →
      ∃ p ∈ procs, hasFieldA p fld = true) := by
  induction procs generalizing full with
  | nil =>
    constructor
    · intro fld y h
      simpa [runUpdates] using h
    · intro fld hn y h
      simp only [runUpdates] at h
      rw [hn] at h
      cases h
  | cons p ps ih =>
    have hstep1 : ∀ fld y, lookupFieldA full fld = some y →
        lookupFieldA (update_full_aman p full wv).1 fld = some y := by
      intro fld y h
      simp only [update_full_aman]
      cases hd : AMan.dets? full with
      | none => simpa using h
      | some fd =>
        cases hs : AMan.samps? full with
        | none => simpa using h
        | some fs => exact goUpd_preserves (AMan.fieldsOf p) full fd fs wv fld y h
    have hstep2 : ∀ fld, lookupFieldA full fld = none →
        ∀ y, lookupFieldA (update_full_aman p full wv).1 fld = some y →
        hasFieldA p fld = true := by
      intro fld hn y h
      simp only [update_full_aman] at h
      cases hd : AMan.dets? full with
      | none =>
        rw [hd] at h
        simp only [] at h
        rw [hn] at h
        cases h
      | some fd =>
        rw [hd] at h
        cases hs : AMan.samps? full with
        | none =>
          rw [hs] at h
          simp only [] at h
          rw [hn] at h
          cases h
        | some fs =>
          rw [hs] at h
          simp only [] at h
          exact goUpd_new_from (AMan.fieldsOf p) full fd fs wv fld hn y h
    constructor
    · intro fld y h
      simp only [runUpdates]
      cases hu : update_full_aman p full wv with
      | mk full1 err =>
        have h1 : lookupFieldA full1 fld = some y := by
          have := hstep1 fld y h
          rw [hu] at this
          exact this
        cases err with
        | none => exact (ih full1).1 fld y h1
        | some e => exact h1
    · intro fld hn y h
      simp only [runUpdates] at h
      cases hu : update_full_aman p full wv with
      | mk full1 err =>
        rw [hu] at h
        cases err with
        | none =>
          simp only [] at h
          cases hl : lookupFieldA full1 fld with
          | some z =>
            refine ⟨p, List.mem_cons_self _ _, ?_⟩
            have := hstep2 fld hn z
            rw [hu] at this
            exact this hl
          | none =>
            rcases (ih full1).2 fld hl y h with ⟨q, hq, hqf⟩
            exact ⟨q, List.mem_cons_of_mem _ hq, hqf⟩
        | some e =>
          simp only [] at h
          refine ⟨p, List.mem_cons_self _ _, ?_⟩
          have := hstep2 fld hn y
          rw [hu] at this
          exact this h

/-- Witness for C1: a two-stage sequence where the second stage recomputes a
field name the first stage already contributed; the accumulator keeps the
first stage's binding, and the one field added came from the sequence. -/
theorem accumulator_write_once_witness :
    lookupFieldA
      (AMan.mk (some ["d0"]) (some (0, 1)) []
        (.cons "stageA" (.scalar 7) [] .nil)) "stageA" = some (.scalar 7, []) ∧
    lookupFieldA
      (runUpdates
        [AMan.mk (some ["d0"]) (some (0, 1)) []
           (.cons "stageA" (.subm (AMan.mk none none [] .nil)) [] .nil)]
        (AMan.mk (some ["d0"]) (some (0, 1)) [] (.cons "stageA" (.scalar 7) [] .nil))
        true).1 "stageA" = some (.scalar 7, []) :=
  ⟨rfl,
   (accumulator_write_once
      [AMan.mk (some ["d0"]) (some (0, 1)) []
         (.cons "stageA" (.subm (AMan.mk none none [] .nil)) [] .nil)]
      (AMan.mk (some ["d0"]) (some (0, 1)) [] (.cons "stageA" (.scalar 7) [] .nil))
      true).1 "stageA" (.scalar 7, []) rfl⟩

end PCore

namespace PCore

/-! ### C9: reconciliation contract violations -/

/-- An expression raised an exception. -/
def isErr (x : Except String α) : Prop := ∃ e, x = .error e

theorem processField_rmat_err (ctx : ExpCtx) (rows : List (List Bool)) (asn : List AxName)
    (h : asn.getLast? ≠ some .samps) :
    isErr (processField ctx (.rmat rows) asn) := by
  simp only [processField, kindRecognized, Bool.true_eq_false, if_false]
  cases hsh : exMapM (axSize ctx) asn with
  | error e => exact ⟨e, rfl⟩
  | ok shape =>
    simp only [zeros_cls, kindRecognized, if_true]
    match shape with
    | [] => exact ⟨_, rfl⟩
    | [n] => exact ⟨_, rfl⟩
    | r :: c :: d :: t => exact ⟨_, rfl⟩
    | [r, c] =>
      simp only [mkZero]
      cases hpc : exMapM (precheckAx ctx) asn with
      | error e => exact ⟨e, rfl⟩
      | ok u =>
        rw [if_pos h]
        exact ⟨_, rfl⟩

theorem processField_rng_err (ctx : ExpCtx) (msk : List Bool) (asn : List AxName)
    (h : asn.head? ≠ some .samps) :
    isErr (processField ctx (.rng msk) asn) := by
  simp only [processField, kindRecognized, Bool.true_eq_false, if_false]
  cases hsh : exMapM (axSize ctx) asn with
  | error e => exact ⟨e, rfl⟩
  | ok shape =>
    simp only [zeros_cls, kindRecognized, if_true]
    match shape with
    | [] => exact ⟨_, rfl⟩
    | r :: c :: t => exact ⟨_, rfl⟩
    | [n] =>
      simp only [mkZero]
      cases hpc : exMapM (precheckAx ctx) asn with
      | error e => exact ⟨e, rfl⟩
      | ok u =>
        rw [if_pos h]
        exact ⟨_, rfl⟩

theorem processField_csr_err (ctx : ExpCtx) (r c : Nat) (ents : List (Nat × Nat × Int))
    (asn : List AxName) (h : asn ≠ [.dets, .samps]) :
    isErr (processField ctx (.csr r c ents) asn) := by
  simp only [processField, kindRecognized, Bool.true_eq_false, if_false]
  cases hsh : exMapM (axSize ctx) asn with
  | error e => exact ⟨e, rfl⟩
  | ok shape =>
    simp only [zeros_cls, kindRecognized, if_true]
    match shape with
    | [] => exact ⟨_, rfl⟩
    | [n] => exact ⟨_, rfl⟩
    | a :: b :: d :: t => exact ⟨_, rfl⟩
    | [a, b] =>
      simp only [mkZero]
      cases hpc : exMapM (precheckAx ctx) asn with
      | error e => exact ⟨e, rfl⟩
      | ok u =>
        rw [if_pos h]
        exact ⟨_, rfl⟩

theorem goFields_err_of_mem (flds : Fields) (ctx : ExpCtx) (fullD : List String)
    (fullS : Int × Nat) (fx : List (String × Nat)) (k : String) (v : Val)
    (asn : List AxName) (hm : (k, v, asn) ∈ flds.toL)
    (hv : ∀ m, v ≠ .subm m) (hs : ∀ x, v ≠ .scalar x)
    (hp : isErr (processField ctx v asn)) :
    isErr (goFields flds ctx fullD fullS fx) := by
  cases flds with
  | nil => cases hm
  | cons k' v' a' rest =>
    simp only [Fields.toL] at hm
    rcases List.mem_cons.mp hm with hhead | htail
    · injection hhead with h1 h2
      injection h2 with h2 h3
      subst h1; subst h2; subst h3
      rcases hp with ⟨e, he⟩
      rw [goFields_other_eq k v asn rest ctx fullD fullS fx hv hs, he]
      exact ⟨e, rfl⟩
    · have ih := goFields_err_of_mem rest ctx fullD fullS fx k v asn htail hv hs hp
      rcases ih with ⟨e, he⟩
      cases v' with
      | subm m =>
        rw [goFields_subm_eq k' m a' rest ctx fullD fullS fx]
        cases hex : expandA m fullD fullS fx true with
        | error e2 => exact ⟨e2, rfl⟩
        | ok out =>
          rw [he]
          exact ⟨e, rfl⟩
      | scalar x =>
        rw [goFields_scalar_eq k' x a' rest ctx fullD fullS fx, he]
        exact ⟨e, rfl⟩
      | arr1 d =>
        rw [goFields_other_eq k' (.arr1 d) a' rest ctx fullD fullS fx
          (fun m hc => Val.noConfusion hc) (fun x hc => Val.noConfusion hc)]
        cases hpf : processField ctx (.arr1 d) a' with
        | error e2 => exact ⟨e2, rfl⟩
        | ok w => rw [he]; exact ⟨e, rfl⟩
      | arr2 d =>
        rw [goFields_other_eq k' (.arr2 d) a' rest ctx fullD fullS fx
          (fun m hc => Val.noConfusion hc) (fun x hc => Val.noConfusion hc)]
        cases hpf : processField ctx (.arr2 d) a' with
        | error e2 => exact ⟨e2, rfl⟩
        | ok w => rw [he]; exact ⟨e, rfl⟩
      | rng m =>
        rw [goFields_other_eq k' (.rng m) a' rest ctx fullD fullS fx
          (fun m hc => Val.noConfusion hc) (fun x hc => Val.noConfusion hc)]
        cases hpf : processField ctx (.rng m) a' with
        | error e2 => exact ⟨e2, rfl⟩
        | ok w => rw [he]; exact ⟨e, rfl⟩
      | rmat r =>
        rw [goFields_other_eq k' (.rmat r) a' rest ctx fullD fullS fx
          (fun m hc => Val.noConfusion hc) (fun x hc => Val.noConfusion hc)]
        cases hpf : processField ctx (.rmat r) a' with
        | error e2 => exact ⟨e2, rfl⟩
        | ok w => rw [he]; exact ⟨e, rfl⟩
      | csr r c ents =>
        rw [goFields_other_eq k' (.csr r c ents) a' rest ctx fullD fullS fx
          (fun m hc => Val.noConfusion hc) (fun x hc => Val.noConfusion hc)]
        cases hpf : processField ctx (.csr r c ents) a' with
        | error e2 => exact ⟨e2, rfl⟩
        | ok w => rw [he]; exact ⟨e, rfl⟩
      | other t =>
        rw [goFields_other_eq k' (.other t) a' rest ctx fullD fullS fx
          (fun m hc => Val.noConfusion hc) (fun x hc => Val.noConfusion hc)]
        cases hpf : processField ctx (.other t) a' with
        | error e2 => exact ⟨e2, rfl⟩
        | ok w => rw [he]; exact ⟨e, rfl⟩

theorem expandA_err_of_goFields (new : AMan) (fullD : List String) (fullS : Int × Nat)
    (fx : List (String × Nat)) (wv : Bool)
    (h : isErr (goFields (AMan.fieldsOf new) (mkCtx new fullD fullS fx) fullD fullS fx)) :
    isErr (expandA new fullD fullS fx wv) := by
  rcases h with ⟨e, he⟩
  refine ⟨e, ?_⟩
  simp only [expandA]
  rw [he]
  rfl

end PCore

namespace PCore

/-- C9: reconciliation contract violations fail fast.  For any field of the
sub-container, an interval-matrix whose last assigned axis is not the sample
axis, an interval-set whose first assigned axis is not the sample axis, or a
sparse compressed-row matrix whose assignment is not exactly `(dets, samps)`
makes `_expand` raise; and the polymorphic zero factory raises a `ValueError`
on every value whose runtime kind is none of dense array, interval-set,
interval-matrix or csr matrix.  No such malformed field is silently
handled. -/
theorem contract_violations_fail_fast (new : AMan) (fullD : List String)
    (fullS : Int × Nat) (fx : List (String × Nat)) (wv : Bool) (k : String)
    (asn : List AxName) :
    (∀ rows, (k, .rmat rows, asn) ∈ (AMan.fieldsOf new).toL →
      asn.getLast? ≠ some .samps → isErr (expandA new fullD fullS fx wv)) ∧
    (∀ msk, (k, .rng msk, asn) ∈ (AMan.fieldsOf new).toL →
      asn.head? ≠ some .samps → isErr (expandA new fullD fullS fx wv)) ∧
    (∀ r c ents, (k, .csr r c ents, asn) ∈ (AMan.fieldsOf new).toL →
      asn ≠ [.dets, .samps] → isErr (expandA new fullD fullS fx wv)) ∧
    (∀ v shape, kindRecognized v = false → isErr (zeros_cls v shape)) := by
  refine ⟨?_, ?_, ?_, ?_⟩
  · intro rows hm h
    exact expandA_err_of_goFields new fullD fullS fx wv
      (goFields_err_of_mem (AMan.fieldsOf new) (mkCtx new fullD fullS fx) fullD fullS fx
        k (.rmat rows) asn hm (fun m hc => Val.noConfusion hc)
        (fun x hc => Val.noConfusion hc)
        (processField_rmat_err (mkCtx new fullD fullS fx) rows asn h))
  · intro msk hm h
    exact expandA_err_of_goFields new fullD fullS fx wv
      (goFields_err_of_mem (AMan.fieldsOf new) (mkCtx new fullD fullS fx) fullD fullS fx
        k (.rng msk) asn hm (fun m hc => Val.noConfusion hc)
        (fun x hc => Val.noConfusion hc)
        (processField_rng_err (mkCtx new fullD fullS fx) msk asn h))
  · intro r c ents hm h
    exact expandA_err_of_goFields new fullD fullS fx wv
      (goFields_err_of_mem (AMan.fieldsOf new) (mkCtx new fullD fullS fx) fullD fullS fx
        k (.csr r c ents) asn hm (fun m hc => Val.noConfusion hc)
        (fun x hc => Val.noConfusion hc)
        (processField_csr_err (mkCtx new fullD fullS fx) r c ents asn h))
  · intro v shape h
    simp only [zeros_cls, h, Bool.false_eq_true, if_false]
    exact ⟨_, rfl⟩

/-- Witness for C9: an interval-matrix field wrapped with axes `(samps, dets)`
— sample axis not last — makes `_expand` fail, and the zero factory rejects a
value of unrecognized runtime kind. -/
theorem contract_violations_fail_fast_witness :
    isErr (expandA
      (AMan.mk (some ["d0"]) (some (0, 2)) []
        (.cons "f" (.rmat [[true, false]]) [.samps, .dets] .nil))
      ["d0"] (0, 2) [] true) ∧
    isErr (zeros_cls (.other "list") [3]) :=
  ⟨(contract_violations_fail_fast
      (AMan.mk (some ["d0"]) (some (0, 2)) []
        (.cons "f" (.rmat [[true, false]]) [.samps, .dets] .nil))
      ["d0"] (0, 2) [] true "f" [.samps, .dets]).1
     [[true, false]] (by simp [AMan.fieldsOf, Fields.toL]) (by decide),
   (contract_violations_fail_fast
      (AMan.mk (some ["d0"]) (some (0, 2)) []
        (.cons "f" (.rmat [[true, false]]) [.samps, .dets] .nil))
      ["d0"] (0, 2) [] true "f" [.samps, .dets]).2.2.2
     (.other "list") [3] rfl⟩

end PCore

namespace PCore

/-! ### Success-path structure of `_expand` -/

theorem names_app (f g : Fields) : (f.app g).names = f.names ++ g.names := by
  cases f with
  | nil => simp [Fields.app, Fields.names]
  | cons n v a r =>
    simp only [Fields.app, Fields.names, names_app r g, List.cons_append]

theorem lookup_none_of_not_mem_names (f : Fields) (k : String)
    (h : k ∉ f.names) : f.lookup k = none := by
  cases f with
  | nil => rfl
  | cons n v a r =>
    simp only [Fields.names, List.mem_cons] at h
    push_neg at h
    obtain ⟨h1, h2⟩ := h
    simp only [Fields.lookup]
    rw [if_neg (fun hv => h1 hv.symm)]
    exact lookup_none_of_not_mem_names r k h2

theorem goFields_ok_names (flds : Fields) (ctx : ExpCtx) (fullD : List String)
    (fullS : Int × Nat) (fx : List (String × Nat)) (flds' : Fields)
    (h : goFields flds ctx fullD fullS fx = .ok flds') :
    flds'.names = flds.names := by
  cases flds with
  | nil =>
    simp only [goFields] at h
    cases h
    rfl
  | cons k v a rest =>
    cases v with
    | subm m =>
      rw [goFields_subm_eq k m a rest ctx fullD fullS fx] at h
      cases hex : expandA m fullD fullS fx true with
      | error e => rw [hex] at h; cases h
      | ok out =>
        rw [hex] at h
        cases hg : goFields rest ctx fullD fullS fx with
        | error e => rw [hg] at h; cases h
        | ok r =>
          rw [hg] at h
          cases h
          simp only [Fields.names]
          rw [goFields_ok_names rest ctx fullD fullS fx r hg]
    | scalar x =>
      rw [goFields_scalar_eq k x a rest ctx fullD fullS fx] at h
      cases hg : goFields rest ctx fullD fullS fx with
      | error e => rw [hg] at h; cases h
      | ok r =>
        rw [hg] at h
        cases h
        simp only [Fields.names]
        rw [goFields_ok_names rest ctx fullD fullS fx r hg]
    | arr1 d =>
      rw [goFields_other_eq k (.arr1 d) a rest ctx fullD fullS fx
        (fun m hc => Val.noConfusion hc) (fun x hc => Val.noConfusion hc)] at h
      cases hp : processField ctx (.arr1 d) a with
      | error e => rw [hp] at h; cases h
      | ok w =>
        rw [hp] at h
        cases hg : goFields rest ctx fullD fullS fx with
        | error e => rw [hg] at h; cases h
        | ok r =>
          rw [hg] at h
          cases h
          simp only [Fields.names]
          rw [goFields_ok_names rest ctx fullD fullS fx r hg]
    | arr2 d =>
      rw [goFields_other_eq k (.arr2 d) a rest ctx fullD fullS fx
        (fun m hc => Val.noConfusion hc) (fun x hc => Val.noConfusion hc)] at h
      cases hp : processField ctx (.arr2 d) a with
      | error e => rw [hp] at h; cases h
      | ok w =>
        rw [hp] at h
        cases hg : goFields rest ctx fullD fullS fx with
        | error e => rw [hg] at h; cases h
        | ok r =>
          rw [hg] at h
          cases h
          simp only [Fields.names]
          rw [goFields_ok_names rest ctx fullD fullS fx r hg]
    | rng m =>
      rw [goFields_other_eq k (.rng m) a rest ctx fullD fullS fx
        (fun m hc => Val.noConfusion hc) (fun x hc => Val.noConfusion hc)] at h
      cases hp : processField ctx (.rng m) a with
      | error e => rw [hp] at h; cases h
      | ok w =>
        rw [hp] at h
        cases hg : goFields rest ctx fullD fullS fx with
        | error e => rw [hg] at h; cases h
        | ok r =>
          rw [hg] at h
          cases h
          simp only [Fields.names]
          rw [goFields_ok_names rest ctx fullD fullS fx r hg]
    | rmat rr =>
      rw [goFields_other_eq k (.rmat rr) a rest ctx fullD fullS fx
        (fun m hc => Val.noConfusion hc) (fun x hc => Val.noConfusion hc)] at h
      cases hp : processField ctx (.rmat rr) a with
      | error e => rw [hp] at h; cases h
      | ok w =>
        rw [hp] at h
        cases hg : goFields rest ctx fullD fullS fx with
        | error e => rw [hg] at h; cases h
        | ok r =>
          rw [hg] at h
          cases h
          simp only [Fields.names]
          rw [goFields_ok_names rest ctx fullD fullS fx r hg]
    | csr rr cc ents =>
      rw [goFields_other_eq k (.csr rr cc ents) a rest ctx fullD fullS fx
        (fun m hc => Val.noConfusion hc) (fun x hc => Val.noConfusion hc)] at h
      cases hp : processField ctx (.csr rr cc ents) a with
      | error e => rw [hp] at h; cases h
      | ok w =>
        rw [hp] at h
        cases hg : goFields rest ctx fullD fullS fx with
        | error e => rw [hg] at h; cases h
        | ok r =>
          rw [hg] at h
          cases h
          simp only [Fields.names]
          rw [goFields_ok_names rest ctx fullD fullS fx r hg]
    | other t =>
      rw [goFields_other_eq k (.other t) a rest ctx fullD fullS fx
        (fun m hc => Val.noConfusion hc) (fun x hc => Val.noConfusion hc)] at h
      cases hp : processField ctx (.other t) a with
      | error e => rw [hp] at h; cases h
      | ok w =>
        rw [hp] at h
        cases hg : goFields rest ctx fullD fullS fx with
        | error e => rw [hg] at h; cases h
        | ok r =>
          rw [hg] at h
          cases h
          simp only [Fields.names]
          rw [goFields_ok_names rest ctx fullD fullS fx r hg]

theorem expandA_ok_dest (new : AMan) (fullD : List String) (fullS : Int × Nat)
    (fx : List (String × Nat)) (wv : Bool) (out : AMan)
    (h : expandA new fullD fullS fx wv = .ok out) :
    ∃ flds', goFields (AMan.fieldsOf new) (mkCtx new fullD fullS fx) fullD fullS fx =
        .ok flds' ∧
      (Fields.names (if wv then
        flds'.app (.cons "valid" (validVal (mkCtx new fullD fullS fx)) [.dets, .samps] .nil)
        else flds')).Nodup ∧
      out = .mk (some fullD) (some fullS) (mkCtx new fullD fullS fx).outSizes
        (if wv then
          flds'.app (.cons "valid" (validVal (mkCtx new fullD fullS fx)) [.dets, .samps] .nil)
          else flds') := by
  simp only [expandA] at h
  cases hg : goFields (AMan.fieldsOf new) (mkCtx new fullD fullS fx) fullD fullS fx with
  | error e => rw [hg] at h; cases h
  | ok flds' =>
    rw [hg] at h
    simp only [finishExpand] at h
    refine ⟨flds', rfl, ?_⟩
    by_cases hnd : (Fields.names (if wv then
        flds'.app (.cons "valid" (validVal (mkCtx new fullD fullS fx)) [.dets, .samps] .nil)
        else flds')).Nodup
    · rw [if_pos hnd] at h
      cases h
      exact ⟨hnd, rfl⟩
    · rw [if_neg hnd] at h
      cases h

end PCore

namespace PCore

/-! ### C4: validity mask correctness -/

/-- One cell of an interval-matrix given as mask rows (false outside). -/
def rmatCell (rows : List (List Bool)) (i c : Nat) : Bool :=
  (rows.getD i []).getD c false

theorem getD_map_range {α : Type} (f : Nat → α) (n i : Nat) (h : i < n) (d : α) :
    ((List.range n).map f).getD i d = f i := by
  rw [List.getD_eq_getElem?_getD, List.getElem?_map, List.getElem?_range h]
  rfl

theorem validVal_rows_length (ctx : ExpCtx) :
    ∃ rows, validVal ctx = .rmat rows ∧ rows.length = ctx.fullD.length := by
  refine ⟨_, rfl, ?_⟩
  simp [List.length_map, List.length_range]

theorem validVal_cell (ctx : ExpCtx) (i c : Nat) (hi : i < ctx.fullD.length)
    (hc : c < ctx.fullS.2) (rows : List (List Bool))
    (hrows : validVal ctx = .rmat rows) :
    rmatCell rows i c = (detMemB ctx i && sampMemB ctx c) := by
  simp only [validVal] at hrows
  injection hrows with hr
  subst hr
  unfold rmatCell
  rw [getD_map_range _ _ _ hi]
  by_cases hd : detMemB ctx i
  · rw [if_pos hd, hd, getD_map_range _ _ _ hc, Bool.true_and]
  · rw [if_neg hd]
    have : detMemB ctx i = false := by
      cases hb : detMemB ctx i
      · rfl
      · exact absurd hb hd
    rw [this, Bool.false_and]
    rw [List.getD_eq_getElem?_getD, List.getElem?_replicate]
    simp [hc]

/-- The validity interval-matrix `_expand` wraps: one row per full-frame
entity; a cell is true exactly when the entity is in the full-side entity
mapping and the sample lies within the full-side sample mapping (an absent
axis marks everything mapped). -/
theorem expand_valid_spec (sub : AMan) (fullD : List String) (fullS : Int × Nat)
    (fx : List (String × Nat)) (out : AMan)
    (h : expandA sub fullD fullS fx true = .ok out) :
    ∃ rows, lookupFieldA out "valid" = some (.rmat rows, [.dets, .samps]) ∧
      rows.length = fullD.length ∧
      ∀ i c, i < fullD.length → c < fullS.2 →
        (rmatCell rows i c = true ↔
          ((∀ nd, AMan.dets? sub = some nd → ∃ j, (i, j) ∈ detPairs fullD nd) ∧
           (∀ ns, AMan.samps? sub = some ns →
             inSlice (sampsInter fullS ns).1 c = true))) := by
  rcases expandA_ok_dest sub fullD fullS fx true out h with ⟨flds', hg, hnd, hout⟩
  rw [if_pos rfl] at hnd hout
  rcases validVal_rows_length (mkCtx sub fullD fullS fx) with ⟨rows, hrv, hrl⟩
  refine ⟨rows, ?_, by rw [hrl]; rfl, ?_⟩
  · rw [hout]
    simp only [lookupFieldA, AMan.fieldsOf]
    rw [names_app] at hnd
    have hnv : "valid" ∉ flds'.names := by
      intro hmem
      rcases List.nodup_append.mp hnd with ⟨_, _, hdisj⟩
      exact hdisj hmem (by simp [Fields.names])
    rw [lookup_app_of_none _ _ _ (lookup_none_of_not_mem_names flds' "valid" hnv)]
    simp only [Fields.lookup]
    simp [hrv]
  · intro i c hi hc
    rw [validVal_cell (mkCtx sub fullD fullS fx) i c hi hc rows hrv]
    rw [Bool.and_eq_true]
    constructor
    · rintro ⟨hd, hs⟩
      constructor
      · intro nd hnd'
        simp only [detMemB, mkCtx, hnd', Option.map] at hd
        rcases List.any_eq_true.mp hd with ⟨p, hp, hpe⟩
        refine ⟨p.2, ?_⟩
        have : p.1 = i := by simpa using hpe
        rw [← this]
        simpa using hp
      · intro ns hns'
        simp only [sampMemB, mkCtx, hns', Option.map] at hs
        exact hs
    · rintro ⟨hd, hs⟩
      constructor
      · simp only [detMemB, mkCtx]
        cases hnd' : AMan.dets? sub with
        | none => rfl
        | some nd =>
          simp only [Option.map]
          rcases hd nd hnd' with ⟨j, hj⟩
          exact List.any_eq_true.mpr ⟨(i, j), hj, by simp⟩
      · simp only [sampMemB, mkCtx]
        cases hns' : AMan.samps? sub with
        | none => rfl
        | some ns =>
          simp only [Option.map]
          exact hs ns hns'

/-- C4: after `expand(sub, full)`, the wrapped `valid` interval-matrix has one
row per full-frame entity (`full.dets.count` rows), and a cell
`(entity, sample)` reports true if and only if the entity is in the full-side
entity mapping and the sample lies within the full-side sample mapping; a
sub-container with no entity axis marks every entity mapped, and one with no
sample axis marks every sample mapped. -/
theorem valid_mask_correct (sub : AMan) (fullD : List String) (fullS : Int × Nat)
    (fx : List (String × Nat)) (out : AMan)
    (h : expandA sub fullD fullS fx true = .ok out) :
    ∃ rows, lookupFieldA out "valid" = some (.rmat rows, [.dets, .samps]) ∧
      rows.length = fullD.length ∧
      ∀ i c, i < fullD.length → c < fullS.2 →
        (rmatCell rows i c = true ↔
          ((∀ nd, AMan.dets? sub = some nd → ∃ j, (i, j) ∈ detPairs fullD nd) ∧
           (∀ ns, AMan.samps? sub = some ns →
             inSlice (sampsInter fullS ns).1 c = true))) :=
  expand_valid_spec sub fullD fullS fx out h

/-- Witness for C4 at the concrete sub-container restricted to entities
`{d2, d0}` of `{d0, d1, d2}` and samples `[2, 5)` of `[0, 6)`. -/
theorem valid_mask_correct_witness :
    ∃ rows,
      lookupFieldA
        (AMan.mk (some ["d0", "d1", "d2"]) (some (0, 6))
          (outExtraAxes [] []) (Fields.app .nil
            (.cons "valid"
              (validVal (mkCtx (AMan.mk (some ["d2", "d0"]) (some (2, 3)) [] .nil)
                ["d0", "d1", "d2"] (0, 6) []))
              [.dets, .samps] .nil)))
        "valid" = some (.rmat rows, [.dets, .samps]) ∧
      rows.length = 3 ∧
      ∀ i c, i < 3 → c < 6 →
        (rmatCell rows i c = true ↔
          ((∀ nd, AMan.dets? (AMan.mk (some ["d2", "d0"]) (some (2, 3)) [] .nil) =
              some nd → ∃ j, (i, j) ∈ detPairs ["d0", "d1", "d2"] nd) ∧
           (∀ ns, AMan.samps? (AMan.mk (some ["d2", "d0"]) (some (2, 3)) [] .nil) =
              some ns → inSlice (sampsInter (0, 6) ns).1 c = true))) := by
  have h := valid_mask_correct (AMan.mk (some ["d2", "d0"]) (some (2, 3)) [] .nil)
    ["d0", "d1", "d2"] (0, 6) []
    (AMan.mk (some ["d0", "d1", "d2"]) (some (0, 6))
      (outExtraAxes [] []) (Fields.app .nil
        (.cons "valid"
          (validVal (mkCtx (AMan.mk (some ["d2", "d0"]) (some (2, 3)) [] .nil)
            ["d0", "d1", "d2"] (0, 6) []))
          [.dets, .samps] .nil)))
    (by rfl)
  exact h

end PCore


namespace PCore

/-! ### C3: disjoint-axis edge case of `_expand` -/

/-- A value still at its zero-fill: an all-zero array, an everywhere-false
mask, or a sparse matrix with no stored entries. -/
def isZeroFill : Val → Prop
  | .arr1 d => ∀ x ∈ d, x = 0
  | .arr2 d => ∀ r ∈ d, ∀ x ∈ r, x = 0
  | .rng m => ∀ b ∈ m, b = false
  | .rmat rows => ∀ r ∈ rows, ∀ b ∈ r, b = false
  | .csr _ _ ents => ents = []
  | _ => False

theorem inSlice_empty (s : Slice) (he : s.hi ≤ s.lo) (c : Nat) :
    inSlice s c = false := by
  by_cases h : s.lo ≤ (c : Int)
  · have h2 : ¬((c : Int) < s.hi) := by omega
    simp [inSlice, h, h2]
  · simp [inSlice, h]

theorem findIdx?_go_none (x : String) (l : List String) (h : x ∉ l) :
    ∀ i, List.findIdx? (fun y => y = x) l i = none := by
  induction l with
  | nil => intro i; rfl
  | cons a as ih =>
    intro i
    simp only [List.mem_cons] at h
    push_neg at h
    rw [List.findIdx?_cons]
    simp only [decide_eq_true_eq]
    rw [if_neg (fun hv => h.1 hv.symm)]
    exact ih h.2 (i + 1)

theorem findIdx?_eq_none_of_not_mem (l : List String) (x : String)
    (h : x ∉ l) : l.findIdx? (fun y => y = x) = none :=
  findIdx?_go_none x l h 0

theorem detPairsGo_nil_of_disjoint (newD : List String) (i : Nat) (l : List String)
    (h : ∀ x ∈ l, x ∉ newD) : detPairsGo newD i l = [] := by
  induction l generalizing i with
  | nil => rfl
  | cons a as ih =>
    simp only [detPairsGo]
    rw [findIdx?_eq_none_of_not_mem newD a (h a (List.mem_cons_self _ _))]
    exact ih (i + 1) (fun x hx => h x (List.mem_cons_of_mem _ hx))

/-- A wholly disjoint entity axis yields the empty mapping. -/
theorem detPairs_nil_of_disjoint (fullD nd : List String)
    (h : ∀ x ∈ fullD, x ∉ nd) : detPairs fullD nd = [] :=
  detPairsGo_nil_of_disjoint nd 0 fullD h

/-- A wholly disjoint sample axis yields an empty slice on the full side. -/
theorem sampsInter_empty_of_disjoint (fullS ns : Int × Nat)
    (h : fullS.1 + fullS.2 ≤ ns.1 ∨ ns.1 + ns.2 ≤ fullS.1) :
    (sampsInter fullS ns).1.hi ≤ (sampsInter fullS ns).1.lo := by
  simp only [sampsInter]
  rcases h with h | h
  · have h1 : min (fullS.1 + (fullS.2 : Int)) (ns.1 + (ns.2 : Int)) ≤
        fullS.1 + (fullS.2 : Int) := min_le_left _ _
    have h2 : (ns.1 : Int) ≤ max fullS.1 ns.1 := le_max_right _ _
    omega
  · have h1 : min (fullS.1 + (fullS.2 : Int)) (ns.1 + (ns.2 : Int)) ≤
        ns.1 + (ns.2 : Int) := min_le_right _ _
    have h2 : (fullS.1 : Int) ≤ max fullS.1 ns.1 := le_max_left _ _
    omega

theorem exMapM_ok_length {f : α → Except String β} {l : List α} {out : List β}
    (h : exMapM f l = .ok out) : out.length = l.length := by
  induction l generalizing out with
  | nil =>
    simp only [exMapM] at h
    cases h
    rfl
  | cons x xs ih =>
    simp only [exMapM] at h
    cases hfx : f x with
    | error e => rw [hfx] at h; cases h
    | ok y =>
      rw [hfx] at h
      cases hr : exMapM f xs with
      | error e => rw [hr] at h; cases h
      | ok ys =>
        rw [hr] at h
        cases h
        simp [ih hr]

end PCore

namespace PCore

theorem processField_arr1_inv (ctx : ExpCtx) (d : List Int) (asn : List AxName)
    (w : Val) (h : processField ctx (.arr1 d) asn = .ok w) :
    ∃ a n, asn = [a] ∧
      w = .arr1 ((List.range n).map fun i =>
        match dimMapFn ctx a i with
        | some j => d.getD j 0
        | none => 0) := by
  simp only [processField, kindRecognized, Bool.true_eq_false, if_false] at h
  cases hsh : exMapM (axSize ctx) asn with
  | error e => rw [hsh] at h; cases h
  | ok shape =>
    rw [hsh] at h
    simp only [zeros_cls, kindRecognized, if_true] at h
    match shape, h with
    | [], h => simp [mkZero] at h
    | n1 :: n2 :: t, h => simp [mkZero] at h
    | [n], h =>
      simp only [mkZero] at h
      cases hpc : exMapM (precheckAx ctx) asn with
      | error e => rw [hpc] at h; cases h
      | ok u =>
        rw [hpc] at h
        match asn, h with
        | [], h => simp at h
        | a1 :: a2 :: t, h => simp at h
        | [a], h =>
          simp only [] at h
          cases h
          refine ⟨a, n, rfl, ?_⟩
          rw [List.length_replicate]

theorem processField_arr2_inv (ctx : ExpCtx) (d : List (List Int)) (asn : List AxName)
    (w : Val) (h : processField ctx (.arr2 d) asn = .ok w) :
    ∃ a b r c, asn = [a, b] ∧
      w = .arr2 ((List.range ((List.replicate r (List.replicate c (0 : Int))).length)).map
        fun i =>
          (List.range (((List.replicate r (List.replicate c (0 : Int))).getD i []).length)).map
            fun jc =>
              match dimMapFn ctx a i, dimMapFn ctx b jc with
              | some i2, some j2 => (d.getD i2 []).getD j2 0
              | _, _ => 0) := by
  simp only [processField, kindRecognized, Bool.true_eq_false, if_false] at h
  cases hsh : exMapM (axSize ctx) asn with
  | error e => rw [hsh] at h; cases h
  | ok shape =>
    rw [hsh] at h
    simp only [zeros_cls, kindRecognized, if_true] at h
    match shape, h with
    | [], h => simp [mkZero] at h
    | [n], h => simp [mkZero] at h
    | n1 :: n2 :: n3 :: t, h => simp [mkZero] at h
    | [r, c], h =>
      simp only [mkZero] at h
      cases hpc : exMapM (precheckAx ctx) asn with
      | error e => rw [hpc] at h; cases h
      | ok u =>
        rw [hpc] at h
        match asn, h with
        | [], h => simp at h
        | [a1], h => simp at h
        | a1 :: a2 :: a3 :: t, h => simp at h
        | [a, b], h =>
          simp only [] at h
          cases h
          exact ⟨a, b, r, c, rfl, rfl⟩

theorem processField_rng_inv (ctx : ExpCtx) (msk : List Bool) (asn : List AxName)
    (w : Val) (h : processField ctx (.rng msk) asn = .ok w) :
    ∃ n, asn = [.samps] ∧
      w = .rng (rngMatch (List.replicate n false) msk
        (ctx.slicesO.getD (⟨0, 0⟩, ⟨0, 0⟩)).1
        (ctx.slicesO.getD (⟨0, 0⟩, ⟨0, 0⟩)).2) := by
  simp only [processField, kindRecognized, Bool.true_eq_false, if_false] at h
  cases hsh : exMapM (axSize ctx) asn with
  | error e => rw [hsh] at h; cases h
  | ok shape =>
    rw [hsh] at h
    simp only [zeros_cls, kindRecognized, if_true] at h
    match shape, h with
    | [], h => simp [mkZero] at h
    | n1 :: n2 :: t, h => simp [mkZero] at h
    | [n], h =>
      simp only [mkZero] at h
      cases hpc : exMapM (precheckAx ctx) asn with
      | error e => rw [hpc] at h; cases h
      | ok u =>
        rw [hpc] at h
        by_cases h1 : asn.head? ≠ some .samps
        · rw [if_pos h1] at h; cases h
        · rw [if_neg h1] at h
          by_cases h2 : asn.length ≠ 1
          · rw [if_pos h2] at h; cases h
          · rw [if_neg h2] at h
            push_neg at h1 h2
            have hasn : asn = [.samps] := by
              match asn, h1, h2 with
              | [.samps], _, _ => rfl
            cases h
            exact ⟨n, hasn, rfl⟩

theorem processField_rmat_inv (ctx : ExpCtx) (rows : List (List Bool))
    (asn : List AxName) (w : Val) (h : processField ctx (.rmat rows) asn = .ok w) :
    ∃ r c, asn = [.dets, .samps] ∧
      w = .rmat (rmatMatch (List.replicate r (List.replicate c false)) rows
        (ctx.pairsO.getD [])
        (ctx.slicesO.getD (⟨0, 0⟩, ⟨0, 0⟩)).1
        (ctx.slicesO.getD (⟨0, 0⟩, ⟨0, 0⟩)).2) := by
  simp only [processField, kindRecognized, Bool.true_eq_false, if_false] at h
  cases hsh : exMapM (axSize ctx) asn with
  | error e => rw [hsh] at h; cases h
  | ok shape =>
    rw [hsh] at h
    simp only [zeros_cls, kindRecognized, if_true] at h
    match shape, h with
    | [], h => simp [mkZero] at h
    | [n], h => simp [mkZero] at h
    | n1 :: n2 :: n3 :: t, h => simp [mkZero] at h
    | [r, c], h =>
      simp only [mkZero] at h
      cases hpc : exMapM (precheckAx ctx) asn with
      | error e => rw [hpc] at h; cases h
      | ok u =>
        rw [hpc] at h
        by_cases h1 : asn.getLast? ≠ some .samps
        · rw [if_pos h1] at h; cases h
        · rw [if_neg h1] at h
          by_cases h2 : asn.length > 2
          · rw [if_pos h2] at h; cases h
          · rw [if_neg h2] at h
            match asn, h with
            | [.dets, .samps], h =>
              simp only [] at h
              cases h
              exact ⟨r, c, rfl, rfl⟩
            | [], h => simp at h
            | [a1], h => simp at h
            | [.samps, .samps], h => simp at h
            | [.otherAx s, .samps], h => simp at h
            | [.dets, .dets], h => simp at h
            | [.samps, .dets], h => simp at h
            | [.otherAx s, .dets], h => simp at h
            | [a1, .otherAx s], h => simp at h
            | a1 :: a2 :: a3 :: t, h => simp at h

theorem processField_csr_inv (ctx : ExpCtx) (nrows ncols : Nat)
    (ents : List (Nat × Nat × Int)) (asn : List AxName) (w : Val)
    (h : processField ctx (.csr nrows ncols ents) asn = .ok w) :
    ∃ r c ents2, asn = [.dets, .samps] ∧
      reform_csr nrows ents (ctx.pairsO.getD [])
        ((ctx.slicesO.getD (⟨0, 0⟩, ⟨0, 0⟩)).1.lo -
          (ctx.slicesO.getD (⟨0, 0⟩, ⟨0, 0⟩)).2.lo) r c = .ok ents2 ∧
      w = .csr r c ents2 := by
  simp only [processField, kindRecognized, Bool.true_eq_false, if_false] at h
  cases hsh : exMapM (axSize ctx) asn with
  | error e => rw [hsh] at h; cases h
  | ok shape =>
    rw [hsh] at h
    simp only [zeros_cls, kindRecognized, if_true] at h
    match shape, h with
    | [], h => simp [mkZero] at h
    | [n], h => simp [mkZero] at h
    | n1 :: n2 :: n3 :: t, h => simp [mkZero] at h
    | [r, c], h =>
      simp only [mkZero] at h
      cases hpc : exMapM (precheckAx ctx) asn with
      | error e => rw [hpc] at h; cases h
      | ok u =>
        rw [hpc] at h
        by_cases h1 : asn ≠ [.dets, .samps]
        · rw [if_pos h1] at h; cases h
        · rw [if_neg h1] at h
          cases hrf : reform_csr nrows ents (ctx.pairsO.getD [])
              ((ctx.slicesO.getD (⟨0, 0⟩, ⟨0, 0⟩)).1.lo -
                (ctx.slicesO.getD (⟨0, 0⟩, ⟨0, 0⟩)).2.lo) r c with
          | error e => rw [hrf] at h; cases h
          | ok ents2 =>
            rw [hrf] at h
            simp only [] at h
            cases h
            push_neg at h1
            exact ⟨r, c, ents2, h1, hrf, rfl⟩

end PCore

namespace PCore

theorem dimMapFn_dets_nil (ctx : ExpCtx) (hp : ctx.pairsO = some []) (i : Nat) :
    dimMapFn ctx .dets i = none := by
  simp [dimMapFn, hp, List.find?]

theorem dimMapFn_samps_empty (ctx : ExpCtx) (pr : Slice × Slice)
    (hs : ctx.slicesO = some pr) (he : pr.1.hi ≤ pr.1.lo) (c : Nat) :
    dimMapFn ctx .samps c = none := by
  simp only [dimMapFn, hs, Option.getD]
  rw [inSlice_empty pr.1 he c]
  simp

theorem replicate_all_false (n : Nat) : ∀ b ∈ List.replicate n false, b = false :=
  fun b hb => List.eq_of_mem_replicate hb

theorem getD_mem_or_default {α : Type} (l : List α) (i : Nat) (d : α) :
    l.getD i d ∈ l ∨ l.getD i d = d := by
  cases hlt : decide (i < l.length) with
  | true =>
    have hi : i < l.length := of_decide_eq_true hlt
    rw [List.getD_eq_getElem?_getD, List.getElem?_eq_getElem hi]
    exact Or.inl (List.getElem_mem hi)
  | false =>
    have hi : ¬(i < l.length) := of_decide_eq_false hlt
    rw [List.getD_eq_getElem?_getD, List.getElem?_eq_none (Nat.not_lt.mp hi)]
    exact Or.inr rfl

theorem getD_all_false (o : List Bool) (ho : ∀ b ∈ o, b = false) (c : Nat) :
    o.getD c false = false := by
  rcases getD_mem_or_default o c false with h | h
  · exact ho _ h
  · exact h

theorem rngMatch_empty_all_false (o n : List Bool) (fs ns : Slice)
    (he : fs.hi ≤ fs.lo) (ho : ∀ b ∈ o, b = false) :
    ∀ b ∈ rngMatch o n fs ns, b = false := by
  intro b hb
  simp only [rngMatch, List.mem_map] at hb
  rcases hb with ⟨c, _, hcb⟩
  rw [inSlice_empty fs he c] at hcb
  simp only [Bool.false_eq_true, if_false] at hcb
  rw [← hcb]
  exact getD_all_false o ho c

theorem mem_set_cases {α : Type} (l : List α) (i : Nat) (x a : α)
    (h : a ∈ l.set i x) : a ∈ l ∨ a = x := by
  rcases List.mem_or_eq_of_mem_set h with h1 | h2
  · exact Or.inl h1
  · exact Or.inr h2

theorem rmatMatch_empty_all_false (pairs : List (Nat × Nat)) (orows nr : List (List Bool))
    (fs ns : Slice) (he : fs.hi ≤ fs.lo)
    (ho : ∀ r ∈ orows, ∀ b ∈ r, b = false) :
    ∀ r ∈ rmatMatch orows nr pairs fs ns, ∀ b ∈ r, b = false := by
  induction pairs generalizing orows with
  | nil => exact ho
  | cons pr rest ih =>
    simp only [rmatMatch, List.foldl_cons] at *
    refine ih _ ?_
    intro r hr
    rcases mem_set_cases _ _ _ _ hr with hin | heq
    · exact ho r hin
    · subst heq
      refine rngMatch_empty_all_false _ _ fs ns he ?_
      rcases getD_mem_or_default orows pr.1 [] with hmem | hdef
      · exact ho _ hmem
      · rw [hdef]
        intro b hb
        cases hb

theorem rmatMatch_nil_pairs (orows nr : List (List Bool)) (fs ns : Slice) :
    rmatMatch orows nr [] fs ns = orows := rfl

end PCore

namespace PCore

theorem exMapM_nil_of_all_err {f : α → Except String β} (hf : ∀ x, isErr (f x))
    (l : List α) (out : List β) (h : exMapM f l = .ok out) : out = [] := by
  cases l with
  | nil =>
    simp only [exMapM] at h
    cases h
    rfl
  | cons x xs =>
    rcases hf x with ⟨e, he⟩
    simp only [exMapM] at h
    rw [he] at h
    cases h

theorem reform_csr_ok_pairs_nil (nr : Nat) (ents : List (Nat × Nat × Int))
    (shift : Int) (R C : Nat) (ents2 : List (Nat × Nat × Int))
    (h : reform_csr nr ents [] shift R C = .ok ents2) : ents2 = [] := by
  simp only [reform_csr] at h
  split at h
  · cases h
  · exact exMapM_nil_of_all_err (fun t => ⟨_, rfl⟩) ents ents2 h

theorem processField_ok_zero_pairs_nil (ctx : ExpCtx) (v : Val) (asn : List AxName)
    (w : Val) (hp : ctx.pairsO = some []) (hmem : .dets ∈ asn)
    (h : processField ctx v asn = .ok w) : isZeroFill w := by
  cases v with
  | scalar x => simp [processField, kindRecognized] at h
  | subm m => simp [processField, kindRecognized] at h
  | other t => simp [processField, kindRecognized] at h
  | arr1 d =>
    rcases processField_arr1_inv ctx d asn w h with ⟨a, n, hasn, hw⟩
    subst hasn
    have ha : AxName.dets = a := by simpa using hmem
    subst ha
    subst hw
    intro x hx
    rcases List.mem_map.mp hx with ⟨i, _, hix⟩
    rw [dimMapFn_dets_nil ctx hp i] at hix
    exact hix.symm
  | arr2 d =>
    rcases processField_arr2_inv ctx d asn w h with ⟨a, b, r, c, hasn, hw⟩
    subst hasn
    subst hw
    intro row hrow x hx
    rcases List.mem_map.mp hrow with ⟨i, _, hirow⟩
    rw [← hirow] at hx
    rcases List.mem_map.mp hx with ⟨jc, _, hjx⟩
    have hm : AxName.dets = a ∨ AxName.dets = b := by simpa using hmem
    rcases hm with ha | hb
    · subst ha
      rw [dimMapFn_dets_nil ctx hp i] at hjx
      cases hfb : dimMapFn ctx b jc with
      | none => rw [hfb] at hjx; exact hjx.symm
      | some j2 => rw [hfb] at hjx; exact hjx.symm
    · subst hb
      rw [dimMapFn_dets_nil ctx hp jc] at hjx
      cases hfa : dimMapFn ctx a i with
      | none => rw [hfa] at hjx; exact hjx.symm
      | some i2 => rw [hfa] at hjx; exact hjx.symm
  | rng msk =>
    rcases processField_rng_inv ctx msk asn w h with ⟨n, hasn, hw⟩
    subst hasn
    simp at hmem
  | rmat rows =>
    rcases processField_rmat_inv ctx rows asn w h with ⟨r, c, hasn, hw⟩
    rw [hp] at hw
    simp only [Option.getD_some] at hw
    rw [rmatMatch_nil_pairs] at hw
    subst hw
    intro row hrow x hx
    have : row = List.replicate c false := List.eq_of_mem_replicate hrow
    subst this
    exact List.eq_of_mem_replicate hx
  | csr nr nc ents =>
    rcases processField_csr_inv ctx nr nc ents asn w h with ⟨r, c, ents2, hasn, hrf, hw⟩
    rw [hp] at hrf
    simp only [Option.getD_some] at hrf
    subst hw
    have : ents2 = [] := reform_csr_ok_pairs_nil nr ents _ r c ents2 hrf
    simp [isZeroFill, this]

theorem processField_ok_zero_slice_empty (ctx : ExpCtx) (v : Val) (asn : List AxName)
    (w : Val) (pr : Slice × Slice) (hs : ctx.slicesO = some pr)
    (he : pr.1.hi ≤ pr.1.lo) (hmem : .samps ∈ asn)
    (hnc : ∀ a b e, v ≠ .csr a b e)
    (h : processField ctx v asn = .ok w) : isZeroFill w := by
  cases v with
  | scalar x => simp [processField, kindRecognized] at h
  | subm m => simp [processField, kindRecognized] at h
  | other t => simp [processField, kindRecognized] at h
  | csr a b e => exact absurd rfl (hnc a b e)
  | arr1 d =>
    rcases processField_arr1_inv ctx d asn w h with ⟨a, n, hasn, hw⟩
    subst hasn
    have ha : AxName.samps = a := by simpa using hmem
    subst ha
    subst hw
    intro x hx
    rcases List.mem_map.mp hx with ⟨i, _, hix⟩
    rw [dimMapFn_samps_empty ctx pr hs he i] at hix
    exact hix.symm
  | arr2 d =>
    rcases processField_arr2_inv ctx d asn w h with ⟨a, b, r, c, hasn, hw⟩
    subst hasn
    subst hw
    intro row hrow x hx
    rcases List.mem_map.mp hrow with ⟨i, _, hirow⟩
    rw [← hirow] at hx
    rcases List.mem_map.mp hx with ⟨jc, _, hjx⟩
    have hm : AxName.samps = a ∨ AxName.samps = b := by simpa using hmem
    rcases hm with ha | hb
    · subst ha
      rw [dimMapFn_samps_empty ctx pr hs he i] at hjx
      cases hfb : dimMapFn ctx b jc with
      | none => rw [hfb] at hjx; exact hjx.symm
      | some j2 => rw [hfb] at hjx; exact hjx.symm
    · subst hb
      rw [dimMapFn_samps_empty ctx pr hs he jc] at hjx
      cases hfa : dimMapFn ctx a i with
      | none => rw [hfa] at hjx; exact hjx.symm
      | some i2 => rw [hfa] at hjx; exact hjx.symm
  | rng msk =>
    rcases processField_rng_inv ctx msk asn w h with ⟨n, hasn, hw⟩
    subst hw
    intro b hb
    rw [hs] at hb
    exact rngMatch_empty_all_false _ _ _ _ he (replicate_all_false n) b hb
  | rmat rows =>
    rcases processField_rmat_inv ctx rows asn w h with ⟨r, c, hasn, hw⟩
    subst hw
    intro row hrow
    rw [hs] at hrow
    exact rmatMatch_empty_all_false _ _ _ _ _ he
      (fun rr hrr => by
        have : rr = List.replicate c false := List.eq_of_mem_replicate hrr
        subst this
        exact replicate_all_false c) row hrow

end PCore

namespace PCore

theorem reform_csr_err_pairs_nil (nr : Nat) (ents : List (Nat × Nat × Int))
    (shift : Int) (R C : Nat) (hn : 1 ≤ nr) :
    isErr (reform_csr nr ents [] shift R C) := by
  cases nr with
  | zero => cases hn
  | succ k =>
    simp only [reform_csr]
    rw [List.range_succ_eq_map]
    simp only [exMapM, List.find?, Option.map]
    exact ⟨_, rfl⟩

theorem reform_csr_err_cols_out (nr : Nat) (ents : List (Nat × Nat × Int))
    (pairs : List (Nat × Nat)) (shift : Int) (R C : Nat)
    (hne : ents ≠ [])
    (hout : ∀ t ∈ ents, ¬(0 ≤ (t.2.1 : Int) + shift ∧
      (t.2.1 : Int) + shift < (C : Int))) :
    isErr (reform_csr nr ents pairs shift R C) := by
  simp only [reform_csr]
  cases h1 : exMapM (fun r2 =>
      match (List.find? (fun p => p.2 = r2) pairs).map (fun p => p.1) with
      | some r3 => Except.ok r3
      | none => Except.error "KeyError: row not in row_map") (List.range nr) with
  | error e => exact ⟨e, rfl⟩
  | ok u =>
    cases ents with
    | nil => exact absurd rfl hne
    | cons t rest =>
      simp only [exMapM]
      cases hrm : (List.find? (fun p => p.2 = t.1) pairs).map (fun p => p.1) with
      | none => exact ⟨_, rfl⟩
      | some r2 =>
        have hcond : ¬(0 ≤ (t.2.1 : Int) + shift ∧ (t.2.1 : Int) + shift < (C : Int) ∧
            r2 < R) := by
          intro ⟨hc1, hc2, _⟩
          exact hout t (List.mem_cons_self _ _) ⟨hc1, hc2⟩
        simp only []
        rw [if_neg hcond]
        exact ⟨_, rfl⟩

end PCore

namespace PCore

theorem processField_csr_err_pairs_nil (ctx : ExpCtx) (nrows ncols : Nat)
    (ents : List (Nat × Nat × Int)) (asn : List AxName)
    (hp : ctx.pairsO = some []) (hn : 1 ≤ nrows) :
    isErr (processField ctx (.csr nrows ncols ents) asn) := by
  by_cases hasn : asn = [.dets, .samps]
  · subst hasn
    simp only [processField, kindRecognized, Bool.true_eq_false, if_false]
    rw [show exMapM (axSize ctx) [AxName.dets, AxName.samps] =
      Except.ok [ctx.fullD.length, ctx.fullS.2] from rfl]
    simp only [zeros_cls, kindRecognized, if_true, mkZero]
    cases hpc : exMapM (precheckAx ctx) [AxName.dets, AxName.samps] with
    | error e => exact ⟨e, rfl⟩
    | ok u =>
      rw [if_neg (fun hcon => hcon rfl)]
      rw [hp]
      simp only [Option.getD_some]
      rcases reform_csr_err_pairs_nil nrows ents
        ((ctx.slicesO.getD (⟨0, 0⟩, ⟨0, 0⟩)).1.lo -
          (ctx.slicesO.getD (⟨0, 0⟩, ⟨0, 0⟩)).2.lo)
        ctx.fullD.length ctx.fullS.2 hn with ⟨e, he⟩
      rw [he]
      exact ⟨e, rfl⟩
  · exact processField_csr_err ctx nrows ncols ents asn hasn

theorem processField_csr_err_cols_out (ctx : ExpCtx) (nrows ncols : Nat)
    (ents : List (Nat × Nat × Int)) (asn : List AxName)
    (hne : ents ≠ [])
    (hout : ∀ t ∈ ents, ¬(0 ≤ (t.2.1 : Int) +
        ((ctx.slicesO.getD (⟨0, 0⟩, ⟨0, 0⟩)).1.lo -
          (ctx.slicesO.getD (⟨0, 0⟩, ⟨0, 0⟩)).2.lo) ∧
      (t.2.1 : Int) +
        ((ctx.slicesO.getD (⟨0, 0⟩, ⟨0, 0⟩)).1.lo -
          (ctx.slicesO.getD (⟨0, 0⟩, ⟨0, 0⟩)).2.lo) < (ctx.fullS.2 : Int))) :
    isErr (processField ctx (.csr nrows ncols ents) asn) := by
  by_cases hasn : asn = [.dets, .samps]
  · subst hasn
    simp only [processField, kindRecognized, Bool.true_eq_false, if_false]
    rw [show exMapM (axSize ctx) [AxName.dets, AxName.samps] =
      Except.ok [ctx.fullD.length, ctx.fullS.2] from rfl]
    simp only [zeros_cls, kindRecognized, if_true, mkZero]
    cases hpc : exMapM (precheckAx ctx) [AxName.dets, AxName.samps] with
    | error e => exact ⟨e, rfl⟩
    | ok u =>
      rw [if_neg (fun hcon => hcon rfl)]
      rcases reform_csr_err_cols_out nrows ents (ctx.pairsO.getD [])
        ((ctx.slicesO.getD (⟨0, 0⟩, ⟨0, 0⟩)).1.lo -
          (ctx.slicesO.getD (⟨0, 0⟩, ⟨0, 0⟩)).2.lo)
        ctx.fullD.length ctx.fullS.2 hne hout with ⟨e, he⟩
      rw [he]
      exact ⟨e, rfl⟩
  · exact processField_csr_err ctx nrows ncols ents asn hasn

end PCore

namespace PCore

theorem mem_toL_name_mem_names (f : Fields) (k : String) (v : Val)
    (a : List AxName) (h : (k, v, a) ∈ f.toL) : k ∈ f.names := by
  cases f with
  | nil => cases h
  | cons n v' a' r =>
    simp only [Fields.toL] at h
    simp only [Fields.names, List.mem_cons]
    rcases List.mem_cons.mp h with hh | ht
    · injection hh with h1 _
      exact Or.inl h1
    · exact Or.inr (mem_toL_name_mem_names r k v a ht)

theorem lookup_of_mem_toL_nodup (f : Fields) (k : String) (v : Val)
    (a : List AxName) (hnd : f.names.Nodup) (h : (k, v, a) ∈ f.toL) :
    f.lookup k = some (v, a) := by
  cases f with
  | nil => cases h
  | cons n v' a' r =>
    simp only [Fields.toL] at h
    simp only [Fields.names, List.nodup_cons] at hnd
    rcases List.mem_cons.mp h with hh | ht
    · injection hh with h1 h2
      injection h2 with h2 h3
      simp only [Fields.lookup, if_pos h1.symm, h2, h3]
    · have hk : n ≠ k := by
        intro he
        subst he
        exact hnd.1 (mem_toL_name_mem_names r n v a ht)
      simp only [Fields.lookup, if_neg hk]
      exact lookup_of_mem_toL_nodup r k v a hnd.2 ht

theorem goFields_ok_lookup (flds : Fields) (ctx : ExpCtx) (fullD : List String)
    (fullS : Int × Nat) (fx : List (String × Nat)) (flds' : Fields)
    (h : goFields flds ctx fullD fullS fx = .ok flds') (k : String) (v : Val)
    (asn : List AxName) (hl : flds.lookup k = some (v, asn)) :
    (∃ m out2, v = .subm m ∧ flds'.lookup k = some (.subm out2, asn)) ∨
    (∃ x, v = .scalar x ∧ flds'.lookup k = some (.scalar x, asn)) ∨
    (∃ w, processField ctx v asn = .ok w ∧ flds'.lookup k = some (w, asn)) := by
  cases flds with
  | nil => cases hl
  | cons k' v' a' rest =>
    simp only [Fields.lookup] at hl
    by_cases hk : k' = k
    · rw [if_pos hk] at hl
      injection hl with hl'
      injection hl' with h1 h2
      subst h1
      subst h2
      cases v' with
      | subm m =>
        rw [goFields_subm_eq k' m a' rest ctx fullD fullS fx] at h
        cases hex : expandA m fullD fullS fx true with
        | error e => rw [hex] at h; cases h
        | ok out2 =>
          rw [hex] at h
          cases hg : goFields rest ctx fullD fullS fx with
          | error e => rw [hg] at h; cases h
          | ok r =>
            rw [hg] at h
            cases h
            exact Or.inl ⟨m, out2, rfl, by simp [Fields.lookup, hk]⟩
      | scalar x =>
        rw [goFields_scalar_eq k' x a' rest ctx fullD fullS fx] at h
        cases hg : goFields rest ctx fullD fullS fx with
        | error e => rw [hg] at h; cases h
        | ok r =>
          rw [hg] at h
          cases h
          exact Or.inr (Or.inl ⟨x, rfl, by simp [Fields.lookup, hk]⟩)
      | arr1 d =>
        rw [goFields_other_eq k' (.arr1 d) a' rest ctx fullD fullS fx
          (fun m hc => Val.noConfusion hc) (fun x hc => Val.noConfusion hc)] at h
        cases hp : processField ctx (.arr1 d) a' with
        | error e => rw [hp] at h; cases h
        | ok w =>
          rw [hp] at h
          cases hg : goFields rest ctx fullD fullS fx with
          | error e => rw [hg] at h; cases h
          | ok r =>
            rw [hg] at h
            cases h
            exact Or.inr (Or.inr ⟨w, rfl, by simp [Fields.lookup, hk]⟩)
      | arr2 d =>
        rw [goFields_other_eq k' (.arr2 d) a' rest ctx fullD fullS fx
          (fun m hc => Val.noConfusion hc) (fun x hc => Val.noConfusion hc)] at h
        cases hp : processField ctx (.arr2 d) a' with
        | error e => rw [hp] at h; cases h
        | ok w =>
          rw [hp] at h
          cases hg : goFields rest ctx fullD fullS fx with
          | error e => rw [hg] at h; cases h
          | ok r =>
            rw [hg] at h
            cases h
            exact Or.inr (Or.inr ⟨w, rfl, by simp [Fields.lookup, hk]⟩)
      | rng m =>
        rw [goFields_other_eq k' (.rng m) a' rest ctx fullD fullS fx
          (fun m hc => Val.noConfusion hc) (fun x hc => Val.noConfusion hc)] at h
        cases hp : processField ctx (.rng m) a' with
        | error e => rw [hp] at h; cases h
        | ok w =>
          rw [hp] at h
          cases hg : goFields rest ctx fullD fullS fx with
          | error e => rw [hg] at h; cases h
          | ok r =>
            rw [hg] at h
            cases h
            exact Or.inr (Or.inr ⟨w, rfl, by simp [Fields.lookup, hk]⟩)
      | rmat rr =>
        rw [goFields_other_eq k' (.rmat rr) a' rest ctx fullD fullS fx
          (fun m hc => Val.noConfusion hc) (fun x hc => Val.noConfusion hc)] at h
        cases hp : processField ctx (.rmat rr) a' with
        | error e => rw [hp] at h; cases h
        | ok w =>
          rw [hp] at h
          cases hg : goFields rest ctx fullD fullS fx with
          | error e => rw [hg] at h; cases h
          | ok r =>
            rw [hg] at h
            cases h
            exact Or.inr (Or.inr ⟨w, rfl, by simp [Fields.lookup, hk]⟩)
      | csr rr cc ents =>
        rw [goFields_other_eq k' (.csr rr cc ents) a' rest ctx fullD fullS fx
          (fun m hc => Val.noConfusion hc) (fun x hc => Val.noConfusion hc)] at h
        cases hp : processField ctx (.csr rr cc ents) a' with
        | error e => rw [hp] at h; cases h
        | ok w =>
          rw [hp] at h
          cases hg : goFields rest ctx fullD fullS fx with
          | error e => rw [hg] at h; cases h
          | ok r =>
            rw [hg] at h
            cases h
            exact Or.inr (Or.inr ⟨w, rfl, by simp [Fields.lookup, hk]⟩)
      | other t =>
        rw [goFields_other_eq k' (.other t) a' rest ctx fullD fullS fx
          (fun m hc => Val.noConfusion hc) (fun x hc => Val.noConfusion hc)] at h
        cases hp : processField ctx (.other t) a' with
        | error e => rw [hp] at h; cases h
        | ok w =>
          rw [hp] at h
          cases hg : goFields rest ctx fullD fullS fx with
          | error e => rw [hg] at h; cases h
          | ok r =>
            rw [hg] at h
            cases h
            exact Or.inr (Or.inr ⟨w, rfl, by simp [Fields.lookup, hk]⟩)
    · rw [if_neg hk] at hl
      have hrec : ∀ r, goFields rest ctx fullD fullS fx = .ok r →
          ((∃ m out2, v = .subm m ∧ r.lookup k = some (.subm out2, asn)) ∨
           (∃ x, v = .scalar x ∧ r.lookup k = some (.scalar x, asn)) ∨
           (∃ w, processField ctx v asn = .ok w ∧ r.lookup k = some (w, asn))) :=
        fun r hg => goFields_ok_lookup rest ctx fullD fullS fx r hg k v asn hl
      cases v' with
      | subm m =>
        rw [goFields_subm_eq k' m a' rest ctx fullD fullS fx] at h
        cases hex : expandA m fullD fullS fx true with
        | error e => rw [hex] at h; cases h
        | ok out2 =>
          rw [hex] at h
          cases hg : goFields rest ctx fullD fullS fx with
          | error e => rw [hg] at h; cases h
          | ok r =>
            rw [hg] at h
            cases h
            rcases hrec r hg with ⟨m2, o2, he, hlk⟩ | ⟨x, he, hlk⟩ | ⟨w, hpw, hlk⟩
            · exact Or.inl ⟨m2, o2, he, by simp [Fields.lookup, hk, hlk]⟩
            · exact Or.inr (Or.inl ⟨x, he, by simp [Fields.lookup, hk, hlk]⟩)
            · exact Or.inr (Or.inr ⟨w, hpw, by simp [Fields.lookup, hk, hlk]⟩)
      | scalar x =>
        rw [goFields_scalar_eq k' x a' rest ctx fullD fullS fx] at h
        cases hg : goFields rest ctx fullD fullS fx with
        | error e => rw [hg] at h; cases h
        | ok r =>
          rw [hg] at h
          cases h
          rcases hrec r hg with ⟨m2, o2, he, hlk⟩ | ⟨x2, he, hlk⟩ | ⟨w, hpw, hlk⟩
          · exact Or.inl ⟨m2, o2, he, by simp [Fields.lookup, hk, hlk]⟩
          · exact Or.inr (Or.inl ⟨x2, he, by simp [Fields.lookup, hk, hlk]⟩)
          · exact Or.inr (Or.inr ⟨w, hpw, by simp [Fields.lookup, hk, hlk]⟩)
      | arr1 d =>
        rw [goFields_other_eq k' (.arr1 d) a' rest ctx fullD fullS fx
          (fun m hc => Val.noConfusion hc) (fun x hc => Val.noConfusion hc)] at h
        cases hp : processField ctx (.arr1 d) a' with
        | error e => rw [hp] at h; cases h
        | ok w =>
          rw [hp] at h
          cases hg : goFields rest ctx fullD fullS fx with
          | error e => rw [hg] at h; cases h
          | ok r =>
            rw [hg] at h
            cases h
            rcases hrec r hg with ⟨m2, o2, he, hlk⟩ | ⟨x2, he, hlk⟩ | ⟨w2, hpw, hlk⟩
            · exact Or.inl ⟨m2, o2, he, by simp [Fields.lookup, hk, hlk]⟩
            · exact Or.inr (Or.inl ⟨x2, he, by simp [Fields.lookup, hk, hlk]⟩)
            · exact Or.inr (Or.inr ⟨w2, hpw, by simp [Fields.lookup, hk, hlk]⟩)
      | arr2 d =>
        rw [goFields_other_eq k' (.arr2 d) a' rest ctx fullD fullS fx
          (fun m hc => Val.noConfusion hc) (fun x hc => Val.noConfusion hc)] at h
        cases hp : processField ctx (.arr2 d) a' with
        | error e => rw [hp] at h; cases h
        | ok w =>
          rw [hp] at h
          cases hg : goFields rest ctx fullD fullS fx with
          | error e => rw [hg] at h; cases h
          | ok r =>
            rw [hg] at h
            cases h
            rcases hrec r hg with ⟨m2, o2, he, hlk⟩ | ⟨x2, he, hlk⟩ | ⟨w2, hpw, hlk⟩
            · exact Or.inl ⟨m2, o2, he, by simp [Fields.lookup, hk, hlk]⟩
            · exact Or.inr (Or.inl ⟨x2, he, by simp [Fields.lookup, hk, hlk]⟩)
            · exact Or.inr (Or.inr ⟨w2, hpw, by simp [Fields.lookup, hk, hlk]⟩)
      | rng msk =>
        rw [goFields_other_eq k' (.rng msk) a' rest ctx fullD fullS fx
          (fun m hc => Val.noConfusion hc) (fun x hc => Val.noConfusion hc)] at h
        cases hp : processField ctx (.rng msk) a' with
        | error e => rw [hp] at h; cases h
        | ok w =>
          rw [hp] at h
          cases hg : goFields rest ctx fullD fullS fx with
          | error e => rw [hg] at h; cases h
          | ok r =>
            rw [hg] at h
            cases h
            rcases hrec r hg with ⟨m2, o2, he, hlk⟩ | ⟨x2, he, hlk⟩ | ⟨w2, hpw, hlk⟩
            · exact Or.inl ⟨m2, o2, he, by simp [Fields.lookup, hk, hlk]⟩
            · exact Or.inr (Or.inl ⟨x2, he, by simp [Fields.lookup, hk, hlk]⟩)
            · exact Or.inr (Or.inr ⟨w2, hpw, by simp [Fields.lookup, hk, hlk]⟩)
      | rmat rr =>
        rw [goFields_other_eq k' (.rmat rr) a' rest ctx fullD fullS fx
          (fun m hc => Val.noConfusion hc) (fun x hc => Val.noConfusion hc)] at h
        cases hp : processField ctx (.rmat rr) a' with
        | error e => rw [hp] at h; cases h
        | ok w =>
          rw [hp] at h
          cases hg : goFields rest ctx fullD fullS fx with
          | error e => rw [hg] at h; cases h
          | ok r =>
            rw [hg] at h
            cases h
            rcases hrec r hg with ⟨m2, o2, he, hlk⟩ | ⟨x2, he, hlk⟩ | ⟨w2, hpw, hlk⟩
            · exact Or.inl ⟨m2, o2, he, by simp [Fields.lookup, hk, hlk]⟩
            · exact Or.inr (Or.inl ⟨x2, he, by simp [Fields.lookup, hk, hlk]⟩)
            · exact Or.inr (Or.inr ⟨w2, hpw, by simp [Fields.lookup, hk, hlk]⟩)
      | csr rr cc ents =>
        rw [goFields_other_eq k' (.csr rr cc ents) a' rest ctx fullD fullS fx
          (fun m hc => Val.noConfusion hc) (fun x hc => Val.noConfusion hc)] at h
        cases hp : processField ctx (.csr rr cc ents) a' with
        | error e => rw [hp] at h; cases h
        | ok w =>
          rw [hp] at h
          cases hg : goFields rest ctx fullD fullS fx with
          | error e => rw [hg] at h; cases h
          | ok r =>
            rw [hg] at h
            cases h
            rcases hrec r hg with ⟨m2, o2, he, hlk⟩ | ⟨x2, he, hlk⟩ | ⟨w2, hpw, hlk⟩
            · exact Or.inl ⟨m2, o2, he, by simp [Fields.lookup, hk, hlk]⟩
            · exact Or.inr (Or.inl ⟨x2, he, by simp [Fields.lookup, hk, hlk]⟩)
            · exact Or.inr (Or.inr ⟨w2, hpw, by simp [Fields.lookup, hk, hlk]⟩)
      | other t =>
        rw [goFields_other_eq k' (.other t) a' rest ctx fullD fullS fx
          (fun m hc => Val.noConfusion hc) (fun x hc => Val.noConfusion hc)] at h
        cases hp : processField ctx (.other t) a' with
        | error e => rw [hp] at h; cases h
        | ok w =>
          rw [hp] at h
          cases hg : goFields rest ctx fullD fullS fx with
          | error e => rw [hg] at h; cases h
          | ok r =>
            rw [hg] at h
            cases h
            rcases hrec r hg with ⟨m2, o2, he, hlk⟩ | ⟨x2, he, hlk⟩ | ⟨w2, hpw, hlk⟩
            · exact Or.inl ⟨m2, o2, he, by simp [Fields.lookup, hk, hlk]⟩
            · exact Or.inr (Or.inl ⟨x2, he, by simp [Fields.lookup, hk, hlk]⟩)
            · exact Or.inr (Or.inr ⟨w2, hpw, by simp [Fields.lookup, hk, hlk]⟩)

end PCore

namespace PCore

/-- C3 counterexample: a sub-container whose entity axis is wholly disjoint
from the full frame's, holding a sparse compressed-row field (even one with
no stored entries), makes `expand` raise a `KeyError` instead of succeeding
with a zero-filled destination: `_reform_csr_array` looks every source row up
in the (empty) row map. -/
theorem expand_disjoint_counterexample :
    (∀ x ∈ ["d0"], x ∉ ["x0"]) ∧
    expandA
      (AMan.mk (some ["x0"]) (some (0, 4)) []
        (.cons "sp" (.csr 1 4 []) [.dets, .samps] .nil))
      ["d0"] (0, 4) [] true = .error "KeyError: row not in row_map" :=
  ⟨by decide, rfl⟩

/-- C3 as amended.  For a sub-container whose entity axis is wholly disjoint
from the full frame's, the axis intersection yields the empty mapping; when
`expand` succeeds, the validity mask is everywhere false and every dense or
interval-matrix field indexed by the entity axis stays at its zero-fill
value; but a sparse compressed-row field with at least one row makes `expand`
raise (`KeyError`) rather than succeed.  Symmetrically for a wholly disjoint
sample axis: the full-side slice is empty; on success the validity mask is
everywhere false and every non-csr field indexed by the sample axis stays at
its zero-fill value; a csr field with stored entries (columns within the
sub axis) makes `expand` raise (`ValueError`). -/
theorem expand_disjoint_amended (sub : AMan) (fullD : List String)
    (fullS : Int × Nat) (fx : List (String × Nat)) :
    (∀ nd, AMan.dets? sub = some nd → (∀ x ∈ fullD, x ∉ nd) →
      detPairs fullD nd = [] ∧
      (∀ out, expandA sub fullD fullS fx true = .ok out →
        (∃ rows, lookupFieldA out "valid" = some (.rmat rows, [.dets, .samps]) ∧
          ∀ i c, i < fullD.length → c < fullS.2 → rmatCell rows i c = false) ∧
        (∀ k v asn, (k, v, asn) ∈ (AMan.fieldsOf sub).toL → .dets ∈ asn →
          (∀ m, v ≠ .subm m) → (∀ x, v ≠ .scalar x) →
          ∃ w, lookupFieldA out k = some (w, asn) ∧ isZeroFill w)) ∧
      (∀ k nr nc ents asn2, (k, .csr nr nc ents, asn2) ∈ (AMan.fieldsOf sub).toL →
        1 ≤ nr → isErr (expandA sub fullD fullS fx true))) ∧
    (∀ o2 n2, AMan.samps? sub = some (o2, n2) →
      (fullS.1 + (fullS.2 : Int) ≤ o2 ∨ o2 + (n2 : Int) ≤ fullS.1) →
      (sampsInter fullS (o2, n2)).1.hi ≤ (sampsInter fullS (o2, n2)).1.lo ∧
      (∀ out, expandA sub fullD fullS fx true = .ok out →
        (∃ rows, lookupFieldA out "valid" = some (.rmat rows, [.dets, .samps]) ∧
          ∀ i c, i < fullD.length → c < fullS.2 → rmatCell rows i c = false) ∧
        (∀ k v asn, (k, v, asn) ∈ (AMan.fieldsOf sub).toL → .samps ∈ asn →
          (∀ m, v ≠ .subm m) → (∀ x, v ≠ .scalar x) →
          (∀ a b e, v ≠ .csr a b e) →
          ∃ w, lookupFieldA out k = some (w, asn) ∧ isZeroFill w)) ∧
      (∀ k nr nc ents, (k, .csr nr nc ents, [.dets, .samps]) ∈ (AMan.fieldsOf sub).toL →
        ents ≠ [] → (∀ t ∈ ents, (t.2.1 : Int) < (n2 : Int)) →
        isErr (expandA sub fullD fullS fx true))) := by
  constructor
  · intro nd hnd hdisj
    have hpairs : detPairs fullD nd = [] := detPairs_nil_of_disjoint fullD nd hdisj
    have hpO : (mkCtx sub fullD fullS fx).pairsO = some [] := by
      simp [mkCtx, hnd, hpairs]
    refine ⟨hpairs, ?_, ?_⟩
    · intro out hout
      constructor
      · rcases expand_valid_spec sub fullD fullS fx out hout with ⟨rows, hv, hlen, hcell⟩
        refine ⟨rows, hv, ?_⟩
        intro i c hi hc
        cases hb : rmatCell rows i c with
        | false => rfl
        | true =>
          rcases (hcell i c hi hc).mp hb with ⟨hdm, _⟩
          rcases hdm nd hnd with ⟨j, hj⟩
          rw [hpairs] at hj
          cases hj
      · intro k v asn hmem hdets hnsub hnsc
        rcases expandA_ok_dest sub fullD fullS fx true out hout with ⟨flds', hg, hnodup, hsh⟩
        rw [if_pos rfl] at hnodup hsh
        rw [names_app] at hnodup
        have hnd' : (Fields.names flds').Nodup := (List.nodup_append.mp hnodup).1
        have hnames : (Fields.names flds') = Fields.names (AMan.fieldsOf sub) :=
          goFields_ok_names (AMan.fieldsOf sub) (mkCtx sub fullD fullS fx)
            fullD fullS fx flds' hg
        have hsubnd : (Fields.names (AMan.fieldsOf sub)).Nodup := by
          rw [← hnames]; exact hnd'
        have hlk : (AMan.fieldsOf sub).lookup k = some (v, asn) :=
          lookup_of_mem_toL_nodup _ k v asn hsubnd hmem
        rcases goFields_ok_lookup (AMan.fieldsOf sub) (mkCtx sub fullD fullS fx)
            fullD fullS fx flds' hg k v asn hlk with
          ⟨m, o2, he, _⟩ | ⟨x, he, _⟩ | ⟨w, hpw, hlkw⟩
        · exact absurd he (hnsub m)
        · exact absurd he (hnsc x)
        · refine ⟨w, ?_, ?_⟩
          · rw [hsh]
            simp only [lookupFieldA, AMan.fieldsOf]
            exact lookup_app_of_some _ _ _ _ hlkw
          · exact processField_ok_zero_pairs_nil (mkCtx sub fullD fullS fx) v asn w
              hpO hdets hpw
    · intro k nr nc ents asn2 hmem hones
      exact expandA_err_of_goFields sub fullD fullS fx true
        (goFields_err_of_mem (AMan.fieldsOf sub) (mkCtx sub fullD fullS fx)
          fullD fullS fx k (.csr nr nc ents) asn2 hmem
          (fun m hc => Val.noConfusion hc) (fun x hc => Val.noConfusion hc)
          (processField_csr_err_pairs_nil (mkCtx sub fullD fullS fx) nr nc ents asn2
            hpO hones))
  · intro o2 n2 hns hdisj
    have hempty : (sampsInter fullS (o2, n2)).1.hi ≤ (sampsInter fullS (o2, n2)).1.lo :=
      sampsInter_empty_of_disjoint fullS (o2, n2) hdisj
    have hsO : (mkCtx sub fullD fullS fx).slicesO = some (sampsInter fullS (o2, n2)) := by
      simp [mkCtx, hns]
    refine ⟨hempty, ?_, ?_⟩
    · intro out hout
      constructor
      · rcases expand_valid_spec sub fullD fullS fx out hout with ⟨rows, hv, hlen, hcell⟩
        refine ⟨rows, hv, ?_⟩
        intro i c hi hc
        cases hb : rmatCell rows i c with
        | false => rfl
        | true =>
          rcases (hcell i c hi hc).mp hb with ⟨_, hsm⟩
          have := hsm (o2, n2) hns
          rw [inSlice_empty _ hempty c] at this
          cases this
      · intro k v asn hmem hsamps hnsub hnsc hncsr
        rcases expandA_ok_dest sub fullD fullS fx true out hout with ⟨flds', hg, hnodup, hsh⟩
        rw [if_pos rfl] at hnodup hsh
        rw [names_app] at hnodup
        have hnd' : (Fields.names flds').Nodup := (List.nodup_append.mp hnodup).1
        have hnames : (Fields.names flds') = Fields.names (AMan.fieldsOf sub) :=
          goFields_ok_names (AMan.fieldsOf sub) (mkCtx sub fullD fullS fx)
            fullD fullS fx flds' hg
        have hsubnd : (Fields.names (AMan.fieldsOf sub)).Nodup := by
          rw [← hnames]; exact hnd'
        have hlk : (AMan.fieldsOf sub).lookup k = some (v, asn) :=
          lookup_of_mem_toL_nodup _ k v asn hsubnd hmem
        rcases goFields_ok_lookup (AMan.fieldsOf sub) (mkCtx sub fullD fullS fx)
            fullD fullS fx flds' hg k v asn hlk with
          ⟨m, o3, he, _⟩ | ⟨x, he, _⟩ | ⟨w, hpw, hlkw⟩
        · exact absurd he (hnsub m)
        · exact absurd he (hnsc x)
        · refine ⟨w, ?_, ?_⟩
          · rw [hsh]
            simp only [lookupFieldA, AMan.fieldsOf]
            exact lookup_app_of_some _ _ _ _ hlkw
          · exact processField_ok_zero_slice_empty (mkCtx sub fullD fullS fx) v asn w
              (sampsInter fullS (o2, n2)) hsO hempty hsamps hncsr hpw
    · intro k nr nc ents hmem hne hcols
      have hshift : ((mkCtx sub fullD fullS fx).slicesO.getD (⟨0, 0⟩, ⟨0, 0⟩)).1.lo -
          ((mkCtx sub fullD fullS fx).slicesO.getD (⟨0, 0⟩, ⟨0, 0⟩)).2.lo =
          o2 - fullS.1 := by
        rw [hsO]
        simp only [Option.getD_some, sampsInter]
        omega
      have hout2 : ∀ t ∈ ents, ¬(0 ≤ (t.2.1 : Int) +
          (((mkCtx sub fullD fullS fx).slicesO.getD (⟨0, 0⟩, ⟨0, 0⟩)).1.lo -
            ((mkCtx sub fullD fullS fx).slicesO.getD (⟨0, 0⟩, ⟨0, 0⟩)).2.lo) ∧
          (t.2.1 : Int) +
          (((mkCtx sub fullD fullS fx).slicesO.getD (⟨0, 0⟩, ⟨0, 0⟩)).1.lo -
            ((mkCtx sub fullD fullS fx).slicesO.getD (⟨0, 0⟩, ⟨0, 0⟩)).2.lo) <
          ((mkCtx sub fullD fullS fx).fullS.2 : Int)) := by
        intro t ht
        rw [hshift]
        have hcol := hcols t ht
        have hfs : (mkCtx sub fullD fullS fx).fullS = fullS := rfl
        rw [hfs]
        rcases hdisj with hA | hB
        · intro ⟨_, h2⟩
          omega
        · intro ⟨h1, _⟩
          omega
      exact expandA_err_of_goFields sub fullD fullS fx true
        (goFields_err_of_mem (AMan.fieldsOf sub) (mkCtx sub fullD fullS fx)
          fullD fullS fx k (.csr nr nc ents) [.dets, .samps] hmem
          (fun m hc => Val.noConfusion hc) (fun x hc => Val.noConfusion hc)
          (processField_csr_err_cols_out (mkCtx sub fullD fullS fx) nr nc ents
            [.dets, .samps] hne hout2))

end PCore

namespace PCore

/-- Witness for C3's amended theorem at concrete disjoint containers: the
empty mapping, the csr `KeyError`, and a dense entity-indexed field left at
its zero fill. -/
theorem expand_disjoint_amended_witness :
    detPairs ["d0"] ["x0"] = [] ∧
    isErr (expandA
      (AMan.mk (some ["x0"]) (some (0, 4)) []
        (.cons "sp" (.csr 1 4 []) [.dets, .samps] .nil))
      ["d0"] (0, 4) [] true) ∧
    (∃ out, expandA
        (AMan.mk (some ["x0"]) (some (0, 4)) []
          (.cons "w" (.arr1 [5]) [.dets] .nil))
        ["d0"] (0, 4) [] true = .ok out ∧
      ∃ w, lookupFieldA out "w" = some (w, [.dets]) ∧ isZeroFill w) := by
  refine ⟨?_, ?_, ?_⟩
  · exact ((expand_disjoint_amended
      (AMan.mk (some ["x0"]) (some (0, 4)) []
        (.cons "sp" (.csr 1 4 []) [.dets, .samps] .nil))
      ["d0"] (0, 4) []).1 ["x0"] rfl (by decide)).1
  · exact ((expand_disjoint_amended
      (AMan.mk (some ["x0"]) (some (0, 4)) []
        (.cons "sp" (.csr 1 4 []) [.dets, .samps] .nil))
      ["d0"] (0, 4) []).1 ["x0"] rfl (by decide)).2.2 "sp" 1 4 [] [.dets, .samps]
      (by simp [AMan.fieldsOf, Fields.toL]) (by decide)
  · have hz := ((expand_disjoint_amended
      (AMan.mk (some ["x0"]) (some (0, 4)) []
        (.cons "w" (.arr1 [5]) [.dets] .nil))
      ["d0"] (0, 4) []).1 ["x0"] rfl (by decide)).2.1
    exact ⟨_, rfl, (hz _ rfl).2 "w" (.arr1 [5]) [.dets]
      (by simp [AMan.fieldsOf, Fields.toL]) (by decide)
      (fun m hc => Val.noConfusion hc) (fun x hc => Val.noConfusion hc)⟩

end PCore

namespace PCore

/-! ### C2: early termination of the run loop -/

theorem execAll_cons (fl : RunFlags) (rc : Bool) (s : PStage) (rest : List PStage)
    (st : LoopState) :
    execAll fl rc (s :: rest) st =
      (if fl.sim && s.skipOnSim then execAll fl rc rest st
       else
        match stepStage fl rc s st with
        | .error e => .error e
        | .ok st' => execAll fl rc rest st') := rfl

theorem runPipe_cons (fl : RunFlags) (rc : Bool) (s : PStage) (rest : List PStage)
    (st : LoopState) :
    runPipe fl rc (s :: rest) st =
      (if fl.sim && s.skipOnSim then runPipe fl rc rest st
       else
        match stepStage fl rc s st with
        | .error e => .error e
        | .ok st' =>
          if AMan.detsCount st'.aman = 0 then .ok (st'.full, s.pname)
          else runPipe fl rc rest st') := rfl

/-- C2: termination of `Pipeline.run`'s loop.  Whenever the loop returns,
either the cause is the sentinel `"end"` — every stage was executed in list
order (skipping sim-flagged ones) and the raw container's entity axis never
emptied after an executed stage — or there is a stage after whose execution
the entity axis emptied: the cause is that stage's name, the returned
accumulator is the state right after it, the run's result equals that of
running only up to that stage (no later stage's hooks are invoked), and no
earlier executed stage had emptied the axis. -/
theorem run_termination (fl : RunFlags) (rc : Bool) (pl : List PStage)
    (st : LoopState) (full : AMan) (cause : String)
    (h : runPipe fl rc pl st = .ok (full, cause)) :
    (cause = "end" ∧ ∃ stF, execAll fl rc pl st = .ok stF ∧ stF.full = full ∧
      (∀ pre s post, pl = pre ++ s :: post → (fl.sim && s.skipOnSim) = false →
        ∀ stM, execAll fl rc (pre ++ [s]) st = .ok stM →
          AMan.detsCount stM.aman ≠ 0)) ∨
    (∃ pre s post stM, pl = pre ++ s :: post ∧ (fl.sim && s.skipOnSim) = false ∧
      execAll fl rc (pre ++ [s]) st = .ok stM ∧ AMan.detsCount stM.aman = 0 ∧
      cause = s.pname ∧ full = stM.full ∧
      runPipe fl rc pl st = runPipe fl rc (pre ++ [s]) st ∧
      (∀ pre2 s2 post2, pre = pre2 ++ s2 :: post2 → (fl.sim && s2.skipOnSim) = false →
        ∀ st2, execAll fl rc (pre2 ++ [s2]) st = .ok st2 →
          AMan.detsCount st2.aman ≠ 0)) := by
  induction pl generalizing st with
  | nil =>
    simp only [runPipe] at h
    injection h with h'
    injection h' with h1 h2
    subst h1
    left
    refine ⟨h2.symm, st, rfl, rfl, ?_⟩
    intro pre s post hp
    cases pre with
    | nil => cases hp
    | cons a b => cases hp
  | cons s rest ih =>
    cases hsk : (fl.sim && s.skipOnSim) with
    | true =>
      rw [runPipe_cons, if_pos hsk] at h
      rcases ih st h with ⟨hc, stF, hE, hFull, hPre⟩ |
        ⟨pre, t, post, stM, hdec, hskt, hEx, hcnt, hc, hfull, hrp, hPre⟩
      · left
        refine ⟨hc, stF, ?_, hFull, ?_⟩
        · rw [execAll_cons, if_pos hsk]
          exact hE
        · intro pre t post hp hns stM hEx
          cases pre with
          | nil =>
            injection hp with hp1 hp2
            subst hp1
            rw [hsk] at hns
            cases hns
          | cons p0 pre' =>
            injection hp with hp1 hp2
            subst hp1
            rw [List.cons_append, execAll_cons, if_pos hsk] at hEx
            exact hPre pre' t post hp2 hns stM hEx
      · right
        refine ⟨s :: pre, t, post, stM, by simp [hdec], hskt, ?_, hcnt, hc, hfull, ?_, ?_⟩
        · rw [List.cons_append, execAll_cons, if_pos hsk]
          exact hEx
        · rw [runPipe_cons, if_pos hsk, List.cons_append, runPipe_cons, if_pos hsk]
          exact hrp
        · intro pre2 s2 post2 hp2 hns st2 hEx2
          cases pre2 with
          | nil =>
            injection hp2 with hq1 hq2
            subst hq1
            rw [hsk] at hns
            cases hns
          | cons q0 pre2' =>
            injection hp2 with hq1 hq2
            subst hq1
            rw [List.cons_append, execAll_cons, if_pos hsk] at hEx2
            exact hPre pre2' s2 post2 hq2 hns st2 hEx2
    | false =>
      rw [runPipe_cons, if_neg (by rw [hsk]; exact Bool.false_ne_true)] at h
      cases hst : stepStage fl rc s st with
      | error e => rw [hst] at h; cases h
      | ok st1 =>
        rw [hst] at h
        simp only [] at h
        by_cases hz : AMan.detsCount st1.aman = 0
        · rw [if_pos hz] at h
          injection h with h'
          injection h' with h1 h2
          right
          refine ⟨[], s, rest, st1, rfl, hsk, ?_, hz, h2.symm, h1.symm, ?_, ?_⟩
          · rw [List.nil_append, execAll_cons, if_neg (by rw [hsk]; exact Bool.false_ne_true),
              hst]
            rfl
          · rw [List.nil_append, runPipe_cons, if_neg (by rw [hsk]; exact Bool.false_ne_true),
              hst, runPipe_cons, if_neg (by rw [hsk]; exact Bool.false_ne_true), hst]
            simp [hz]
          · intro pre2 s2 post2 hp2
            cases pre2 with
            | nil => cases hp2
            | cons a b => cases hp2
        · rw [if_neg hz] at h
          rcases ih st1 h with ⟨hc, stF, hE, hFull, hPre⟩ |
            ⟨pre, t, post, stM, hdec, hskt, hEx, hcnt, hc, hfull, hrp, hPre⟩
          · left
            refine ⟨hc, stF, ?_, hFull, ?_⟩
            · rw [execAll_cons, if_neg (by rw [hsk]; exact Bool.false_ne_true), hst]
              exact hE
            · intro pre t post hp hns stM hEx
              cases pre with
              | nil =>
                injection hp with hp1 hp2
                subst hp1
                rw [List.nil_append, execAll_cons,
                  if_neg (by rw [hsk]; exact Bool.false_ne_true), hst] at hEx
                simp only [execAll] at hEx
                injection hEx with hEx1
                rw [← hEx1]
                exact hz
              | cons p0 pre' =>
                injection hp with hp1 hp2
                subst hp1
                rw [List.cons_append, execAll_cons,
                  if_neg (by rw [hsk]; exact Bool.false_ne_true), hst] at hEx
                exact hPre pre' t post hp2 hns stM hEx
          · right
            refine ⟨s :: pre, t, post, stM, by simp [hdec], hskt, ?_, hcnt, hc, hfull, ?_, ?_⟩
            · rw [List.cons_append, execAll_cons,
                if_neg (by rw [hsk]; exact Bool.false_ne_true), hst]
              exact hEx
            · rw [runPipe_cons, if_neg (by rw [hsk]; exact Bool.false_ne_true), hst]
              simp only []
              rw [if_neg hz, List.cons_append, runPipe_cons,
                if_neg (by rw [hsk]; exact Bool.false_ne_true), hst]
              simp only []
              rw [if_neg hz]
              exact hrp
            · intro pre2 s2 post2 hp2 hns st2 hEx2
              cases pre2 with
              | nil =>
                injection hp2 with hq1 hq2
                subst hq1
                rw [List.nil_append, execAll_cons,
                  if_neg (by rw [hsk]; exact Bool.false_ne_true), hst] at hEx2
                simp only [execAll] at hEx2
                injection hEx2 with hEx1
                rw [← hEx1]
                exact hz
              | cons q0 pre2' =>
                injection hp2 with hq1 hq2
                subst hq1
                rw [List.cons_append, execAll_cons,
                  if_neg (by rw [hsk]; exact Bool.false_ne_true), hst] at hEx2
                exact hPre pre2' s2 post2 hq2 hns st2 hEx2

end PCore

namespace PCore

/-- A stage hook that leaves both containers untouched. -/
def idHook : AMan → AMan → AMan × AMan := fun a p => (a, p)

/-- A `select` hook that cuts every remaining entity from the raw container. -/
def cutAllHook : AMan → AMan → AMan × AMan := fun a p => (restrictDetsA a [], p)

def stageA : PStage := ⟨"stageA", false, idHook, idHook, idHook⟩

def stageB : PStage := ⟨"stageB", false, idHook, idHook, cutAllHook⟩

def stageC : PStage := ⟨"stageC", false, idHook, idHook, idHook⟩

def amanC2 : AMan := .mk (some ["d0", "d1"]) (some (0, 3)) [] .nil

def procC2 : AMan := .mk (some ["d0", "d1"]) (some (0, 3)) [] .nil

/-- Witness for C2: in a three-stage pipeline whose second stage's `select`
cuts every entity, the run returns the second stage's name (never reaching
the third stage). -/
theorem run_termination_witness :
    runPipe (RunFlags.mk true false true) true [stageA, stageB, stageC]
      (LoopState.mk amanC2 procC2 procC2) = .ok (procC2, "stageB") ∧
    ((("stageB" : String) = "end" ∧ ∃ stF,
        execAll (RunFlags.mk true false true) true [stageA, stageB, stageC]
          (LoopState.mk amanC2 procC2 procC2) = .ok stF ∧ stF.full = procC2 ∧
        (∀ pre s post, [stageA, stageB, stageC] = pre ++ s :: post →
          ((RunFlags.mk true false true).sim && s.skipOnSim) = false →
          ∀ stM, execAll (RunFlags.mk true false true) true (pre ++ [s])
              (LoopState.mk amanC2 procC2 procC2) = .ok stM →
            AMan.detsCount stM.aman ≠ 0)) ∨
     (∃ pre s post stM, [stageA, stageB, stageC] = pre ++ s :: post ∧
        ((RunFlags.mk true false true).sim && s.skipOnSim) = false ∧
        execAll (RunFlags.mk true false true) true (pre ++ [s])
          (LoopState.mk amanC2 procC2 procC2) = .ok stM ∧
        AMan.detsCount stM.aman = 0 ∧
        ("stageB" : String) = s.pname ∧ procC2 = stM.full ∧
        runPipe (RunFlags.mk true false true) true [stageA, stageB, stageC]
          (LoopState.mk amanC2 procC2 procC2) =
          runPipe (RunFlags.mk true false true) true (pre ++ [s])
            (LoopState.mk amanC2 procC2 procC2) ∧
        (∀ pre2 s2 post2, pre = pre2 ++ s2 :: post2 →
          ((RunFlags.mk true false true).sim && s2.skipOnSim) = false →
          ∀ st2, execAll (RunFlags.mk true false true) true (pre2 ++ [s2])
              (LoopState.mk amanC2 procC2 procC2) = .ok st2 →
            AMan.detsCount st2.aman ≠ 0))) :=
  ⟨rfl, run_termination (RunFlags.mk true false true) true [stageA, stageB, stageC]
    (LoopState.mk amanC2 procC2 procC2) procC2 "stageB" rfl⟩

end PCore

namespace PCore

/-! ### C8: resumed-run reconciliation -/

theorem detsVals_restrict (m : AMan) (labels : List String)
    (h : ∀ l ∈ labels, l ∈ AMan.detsVals m) :
    AMan.detsVals (restrictDetsA m labels) = labels := by
  cases m with
  | mk d s e f =>
    cases d with
    | none =>
      have : labels = [] := by
        cases labels with
        | nil => rfl
        | cons x xs =>
          have := h x (List.mem_cons_self _ _)
          simp [AMan.detsVals, AMan.dets?] at this
      simp [restrictDetsA, AMan.detsVals, AMan.dets?, this]
    | some cur =>
      simp only [restrictDetsA, AMan.detsVals, AMan.dets?, Option.getD]
      refine List.filter_eq_self.mpr ?_
      intro l hl
      have := h l hl
      simp only [AMan.detsVals, AMan.dets?, Option.getD] at this
      exact List.elem_eq_true_of_mem this

theorem commonDets_sub_aman (aman proc : AMan) :
    ∀ l ∈ commonDets aman proc, l ∈ AMan.detsVals aman := by
  intro l hl
  simp only [commonDets, List.mem_filter] at hl
  simpa using hl.2

theorem commonDets_sub_proc (aman proc : AMan) :
    ∀ l ∈ commonDets aman proc, l ∈ AMan.detsVals proc := by
  intro l hl
  simp only [commonDets, List.mem_filter] at hl
  exact hl.1

theorem stepStage_full_const (fl : RunFlags) (s : PStage) (st st' : LoopState)
    (h : stepStage fl false s st = .ok st') : st'.full = st.full := by
  simp only [stepStage, Bool.false_eq_true, if_false] at h
  by_cases hsel : fl.sel
  · rw [if_pos hsel] at h
    injection h with h'
    rw [← h']
  · rw [if_neg hsel] at h
    injection h with h'
    rw [← h']

theorem stepStage_strip (fl : RunFlags) (s : PStage) (st : LoopState) :
    stepStage fl false (stripCalc s) st = stepStage fl false s st := by
  cases s
  rfl

theorem runPipe_full_const (fl : RunFlags) (pl : List PStage) (st : LoopState)
    (res : AMan) (cause : String)
    (h : runPipe fl false pl st = .ok (res, cause)) : res = st.full := by
  induction pl generalizing st with
  | nil =>
    simp only [runPipe] at h
    injection h with h'
    injection h' with h1 h2
    exact h1.symm
  | cons s rest ih =>
    rw [runPipe_cons] at h
    by_cases hsk : (fl.sim && s.skipOnSim) = true
    · rw [if_pos hsk] at h
      exact ih st h
    · rw [if_neg hsk] at h
      cases hst : stepStage fl false s st with
      | error e => rw [hst] at h; cases h
      | ok st1 =>
        rw [hst] at h
        simp only [] at h
        by_cases hz : AMan.detsCount st1.aman = 0
        · rw [if_pos hz] at h
          injection h with h'
          injection h' with h1 h2
          rw [← h1]
          exact stepStage_full_const fl s st st1 hst
        · rw [if_neg hz] at h
          rw [ih st1 h]
          exact stepStage_full_const fl s st st1 hst

theorem runPipe_strip_calc (fl : RunFlags) (pl : List PStage) (st : LoopState) :
    runPipe fl false pl st = runPipe fl false (pl.map stripCalc) st := by
  induction pl generalizing st with
  | nil => rfl
  | cons s rest ih =>
    simp only [List.map_cons]
    rw [runPipe_cons, runPipe_cons]
    have hskip : (fl.sim && (stripCalc s).skipOnSim) = (fl.sim && s.skipOnSim) := by
      cases s
      rfl
    rw [hskip, stepStage_strip]
    by_cases hsk : (fl.sim && s.skipOnSim) = true
    · rw [if_pos hsk, if_pos hsk]
      exact ih st
    · rw [if_neg hsk, if_neg hsk]
      cases hst : stepStage fl false s st with
      | error e => rfl
      | ok st1 =>
        simp only []
        by_cases hz : AMan.detsCount st1.aman = 0
        · rw [if_pos hz, if_pos hz]
          have : (stripCalc s).pname = s.pname := by cases s; rfl
          rw [this]
        · rw [if_neg hz, if_neg hz]
          exact ih st1

/-- C8: when `Pipeline.run` is resumed with a product container whose entity
axis disagrees with the raw container's, it warns and restricts both to the
entities common to both, in the product container's original label order;
the restricted product container is cloned into the full-frame accumulator,
compute mode is disabled — the run's result does not depend on any stage's
`calc_and_save` hook and the returned accumulator is exactly the restricted
clone — and the reconciliation itself never raises. -/
theorem resumed_run_reconciliation (fl : RunFlags) (pl : List PStage)
    (aman proc : AMan) (hne : AMan.detsVals aman ≠ AMan.detsVals proc) :
    runInit aman (some proc) =
      (⟨restrictDetsA aman (commonDets aman proc),
        restrictDetsA proc (commonDets aman proc),
        restrictDetsA proc (commonDets aman proc)⟩, false, true) ∧
    AMan.detsVals (restrictDetsA aman (commonDets aman proc)) =
      commonDets aman proc ∧
    AMan.detsVals (restrictDetsA proc (commonDets aman proc)) =
      commonDets aman proc ∧
    (∀ res cause, pipelineRun fl pl aman (some proc) = .ok (res, cause) →
      res = restrictDetsA proc (commonDets aman proc)) ∧
    pipelineRun fl pl aman (some proc) =
      runPipe fl false (pl.map stripCalc)
        ⟨restrictDetsA aman (commonDets aman proc),
         restrictDetsA proc (commonDets aman proc),
         restrictDetsA proc (commonDets aman proc)⟩ := by
  have hinit : runInit aman (some proc) =
      (⟨restrictDetsA aman (commonDets aman proc),
        restrictDetsA proc (commonDets aman proc),
        restrictDetsA proc (commonDets aman proc)⟩, false, true) := by
    simp only [runInit, if_neg hne]
  refine ⟨hinit, ?_, ?_, ?_, ?_⟩
  · exact detsVals_restrict aman _ (commonDets_sub_aman aman proc)
  · exact detsVals_restrict proc _ (commonDets_sub_proc aman proc)
  · intro res cause h
    simp only [pipelineRun, hinit] at h
    exact runPipe_full_const fl pl _ res cause h
  · simp only [pipelineRun, hinit]
    exact runPipe_strip_calc fl pl _

end PCore

namespace PCore

def amanC8 : AMan := .mk (some ["d0", "d1", "d2"]) (some (0, 2)) [] .nil

def procC8 : AMan := .mk (some ["d2", "d1", "dX"]) (some (0, 2)) [] .nil

/-- Witness for C8 at concrete mismatched containers: the common entities in
the product container's order are `[d2, d1]`, both containers are restricted
to them, compute mode is off, and the run returns the restricted clone. -/
theorem resumed_run_reconciliation_witness :
    AMan.detsVals amanC8 ≠ AMan.detsVals procC8 ∧
    commonDets amanC8 procC8 = ["d2", "d1"] ∧
    (runInit amanC8 (some procC8) =
      (⟨restrictDetsA amanC8 (commonDets amanC8 procC8),
        restrictDetsA procC8 (commonDets amanC8 procC8),
        restrictDetsA procC8 (commonDets amanC8 procC8)⟩, false, true) ∧
    AMan.detsVals (restrictDetsA amanC8 (commonDets amanC8 procC8)) =
      commonDets amanC8 procC8 ∧
    AMan.detsVals (restrictDetsA procC8 (commonDets amanC8 procC8)) =
      commonDets amanC8 procC8 ∧
    (∀ res cause,
      pipelineRun (RunFlags.mk true false true) [stageA] amanC8 (some procC8) =
        .ok (res, cause) →
      res = restrictDetsA procC8 (commonDets amanC8 procC8)) ∧
    pipelineRun (RunFlags.mk true false true) [stageA] amanC8 (some procC8) =
      runPipe (RunFlags.mk true false true) false ([stageA].map stripCalc)
        ⟨restrictDetsA amanC8 (commonDets amanC8 procC8),
         restrictDetsA procC8 (commonDets amanC8 procC8),
         restrictDetsA procC8 (commonDets amanC8 procC8)⟩) :=
  ⟨by decide, rfl,
   resumed_run_reconciliation (RunFlags.mk true false true) [stageA] amanC8 procC8
     (by decide)⟩

end PCore
